import Mathlib

/-!
Verification development for the grammar-matching core of a SQL parsing
toolkit, instantiated with the Hive dialect data of
src/sqlfluff/core/dialects/dialect_hive.py.

The repository source under src/ contains only the Hive dialect *data*
(grammar-expression instances, keyword-set updates, bracket-pair updates,
segment-class registrations).  The matching engine, the grammar-expression
algebra and the dialect-composition machinery live elsewhere in the
repository and are not part of src/; those parts are modelled from the
specification (each such definition carries a doc comment saying so).
The Hive dialect data itself is transcribed faithfully from
dialect_hive.py.
-/

set_option maxHeartbeats 1000000

namespace SqlFluff

/-- Lexical class of a leaf token, as delivered by the (out-of-scope) lexer:
keyword-candidate words, quoted literals, numeric literals, punctuation,
bracket tokens, statement separator and trivia (whitespace/comments). -/
inductive TokClass where
  | word
  | squote
  | dquote
  | numlit
  | comma
  | equalsTok
  | colon
  | semi
  | lt
  | gt
  | lparen
  | rparen
  | ws
  | comment
  deriving DecidableEq, Repr

/-- Segment tree node: a raw leaf carrying its lexical class and verbatim
source text, or a typed interior node over an ordered list of children. -/
inductive Segment where
  | leaf (cls : TokClass) (raw : String)
  | node (tag : String) (children : List Segment)
  deriving Repr

mutual

/-- Raw text of a segment (as its character sequence): a leaf's verbatim
text, or the concatenation of the children's raw text in document order. -/
def Segment.raw : Segment → List Char
  | .leaf _ r => r.data
  | .node _ cs => rawL cs

/-- Concatenated raw text of a list of segments in document order. -/
def rawL : List Segment → List Char
  | [] => []
  | x :: xs => x.raw ++ rawL xs

end

/-- Grammar expression algebra.  Modelled from the spec: the engine's
expression variants (terminals, sequence with per-item optional flags,
ordered-choice alternation, delimited list, bracketed group, named
reference, prefix-recognizer, greedy-scan-until).  The constructor
delimitedRest is the internal continuation of a delimited-list match
(the engine's repetition loop), never used in dialect data. -/
inductive Grammar where
  | kw (k : String)
  | tok (c : TokClass)
  | nakedIdent
  | ref (n : String)
  | seq (items : List (Grammar × Bool))
  | oneOf (opts : List Grammar)
  | delimited (item : Grammar)
  | delimitedRest (item : Grammar)
  | bracketed (items : List (Grammar × Bool)) (kind : String)
  | startsWith (inner : Grammar)
  | greedyUntil (term : Grammar)

/-- Binding of a rule name in a dialect: an optional output type tag (for
segment classes; plain grammar bindings have none), the recognition
grammar and the optional full decomposition grammar.  Modelled from the
spec's two-phase match/parse protocol. -/
structure RuleDef where
  typeTag : Option String
  matchGrammar : Grammar
  parseGrammar : Option Grammar

/-- Dialect value: named collection of rule bindings, keyword sets and
bracket-pair definitions.  Modelled from the spec's Dialect Registry. -/
structure Dialect where
  name : String
  rules : List (String × RuleDef)
  reserved_keywords : List String
  unreserved_keywords : List String
  bracket_pairs : List (String × String × String × Bool)

/-- Resolution of a rule name against a dialect's binding table. -/
def Dialect.lookup (d : Dialect) (n : String) : Option RuleDef :=
  (d.rules.find? (fun p => p.1 == n)).map (fun p => p.2)

/-- Derivation operation copy_as: an independent clone under a new name.
Modelled from the spec (deep, independent copy; dialects are immutable
values, so the clone shares no mutable state with the parent). -/
def Dialect.copy_as (d : Dialect) (n : String) : Dialect :=
  { d with name := n }

/-- Keyword-set update operation, as in sets("reserved_keywords").update. -/
def Dialect.updateReserved (d : Dialect) (ws : List String) : Dialect :=
  { d with reserved_keywords := d.reserved_keywords ++ ws }

/-- Keyword-set update operation, as in sets("unreserved_keywords").update. -/
def Dialect.updateUnreserved (d : Dialect) (ws : List String) : Dialect :=
  { d with unreserved_keywords := d.unreserved_keywords ++ ws }

/-- Bracket-pair set update operation, as in sets("bracket_pairs").update. -/
def Dialect.updateBrackets (d : Dialect)
    (bs : List (String × String × String × Bool)) : Dialect :=
  { d with bracket_pairs := d.bracket_pairs ++ bs }

/-- Registration of a new rule binding (dialect.add / segment() without
replace); the name must be fresh. -/
def Dialect.addRule (d : Dialect) (n : String) (rd : RuleDef) : Dialect :=
  { d with rules := d.rules ++ [(n, rd)] }

/-- Override of an existing rule binding (segment(replace=True)): total
replacement of the binding under that name. -/
def Dialect.replaceRule (d : Dialect) (n : String) (rd : RuleDef) : Dialect :=
  { d with rules := d.rules.map (fun p => if p.1 == n then (n, rd) else p) }

/-- Trivia test: whitespace and comment segments are permitted between
sequence items without affecting matching, per the spec. -/
def isTrivia : Segment → Bool
  | .leaf .ws _ => true
  | .leaf .comment _ => true
  | _ => false

/-- Decidable check that every segment of a list is trivia. -/
def allTrivia (l : List Segment) : Bool := l.all isTrivia

/-- Split of leading trivia from a stream; the two parts concatenate back
to the input. -/
def splitTrivia : List Segment → List Segment × List Segment
  | [] => ([], [])
  | x :: xs =>
    if isTrivia x then
      let p := splitTrivia xs
      (x :: p.1, p.2)
    else ([], x :: xs)

/-- Match result: the segments consumed (possibly regrouped into typed
nodes) and the unconsumed remainder of the stream. -/
structure MatchResult where
  matched : List Segment
  rest : List Segment

/-- Scan for the matching close token of a bracketed group, tracking the
nesting depth of the same bracket kind, per the spec's Bracketed
algorithm.  Returns the content before the close, the close token itself
and the stream after it. -/
def findClose (oc cc : TokClass) :
    List Segment → Nat → Option (List Segment × Segment × List Segment)
  | [], _ => none
  | x :: xs, dep =>
    match x with
    | .leaf c _ =>
      if c = cc then
        if dep = 0 then some ([], x, xs)
        else (findClose oc cc xs (dep - 1)).map (fun q => (x :: q.1, q.2.1, q.2.2))
      else if c = oc then
        (findClose oc cc xs (dep + 1)).map (fun q => (x :: q.1, q.2.1, q.2.2))
      else (findClose oc cc xs dep).map (fun q => (x :: q.1, q.2.1, q.2.2))
    | .node _ _ => (findClose oc cc xs dep).map (fun q => (x :: q.1, q.2.1, q.2.2))

/-- Token class of a rule that is a plain terminal binding (used to
resolve the open/close segment names of a bracket-pair definition). -/
def tokClassOf (d : Dialect) (n : String) : Option TokClass :=
  match d.lookup n with
  | some rd =>
    match rd.matchGrammar with
    | .tok c => some c
    | _ => none
  | none => none

/-- Open/close token classes for a named bracket kind, resolved through
the dialect's bracket-pair registry. -/
def bracketClasses (d : Dialect) (kind : String) : Option (TokClass × TokClass) :=
  match d.bracket_pairs.find? (fun q => q.1 == kind) with
  | none => none
  | some q =>
    match tokClassOf d q.2.1, tokClassOf d q.2.2.1 with
    | some a, some b => some (a, b)
    | _, _ => none

/-- Type tag of the node produced for a matched bracketed group of the
given kind. -/
def brTag (kind : String) : String := "bracketed_" ++ kind

/-- Uppercase for a single character (ASCII), defined arithmetically so it
reduces in the kernel. -/
def charUp (c : Char) : Char :=
  if 97 ≤ c.toNat ∧ c.toNat ≤ 122 then Char.ofNat (c.toNat - 32) else c

/-- Uppercased character data of a string. -/
def strUp (s : String) : List Char := s.data.map charUp

/-- Case-insensitive keyword comparison: the token's text uppercased must
equal the (uppercase) keyword. -/
def kwEq (r k : String) : Bool := strUp r == k.data

/-- Grammar used when a named reference is resolved: the full decomposition
grammar when the binding has one, otherwise the recognition grammar.
Modelled from the spec's two-phase protocol (the cheap recognition gate is
a performance device; the full expression decides acceptance). -/
def resolveG (rd : RuleDef) : Grammar :=
  rd.parseGrammar.getD rd.matchGrammar

/-- Matching engine.  Modelled from the spec (section 4.2): a purely
functional evaluator of the grammar algebra over an immutable stream and
an immutable dialect.  The Nat argument is recursion fuel; the outer
Option layer distinguishes fuel exhaustion (none) from a genuine
no-match (some none) and a genuine match (some (some r)). -/
def matchG : Nat → Dialect → Grammar → List Segment → Option (Option MatchResult)
  | 0, _, _, _ => none
  | f + 1, d, g, s =>
    match g with
    | .kw k =>
      match s with
      | .leaf .word r :: rest =>
        if kwEq r k then some (some ⟨[.leaf .word r], rest⟩) else some none
      | _ => some none
    | .tok c =>
      match s with
      | .leaf c' r :: rest =>
        if c' = c then some (some ⟨[.leaf c' r], rest⟩) else some none
      | _ => some none
    | .nakedIdent =>
      match s with
      | .leaf .word r :: rest =>
        if d.reserved_keywords.any (fun k => kwEq r k) then some none
        else some (some ⟨[.leaf .word r], rest⟩)
      | _ => some none
    | .ref n =>
      match d.lookup n with
      | none => some none
      | some rd =>
        match matchG f d (resolveG rd) s with
        | none => none
        | some none => some none
        | some (some r) =>
          match rd.typeTag with
          | some t => some (some ⟨[.node t r.matched], r.rest⟩)
          | none => some (some r)
    | .seq [] => some (some ⟨[], s⟩)
    | .seq ((g1, o) :: its) =>
      let p := splitTrivia s
      match matchG f d g1 p.2 with
      | none => none
      | some none => if o then matchG f d (.seq its) s else some none
      | some (some r) =>
        match matchG f d (.seq its) r.rest with
        | none => none
        | some none => some none
        | some (some r2) => some (some ⟨p.1 ++ r.matched ++ r2.matched, r2.rest⟩)
    | .oneOf [] => some none
    | .oneOf (g1 :: gs) =>
      match matchG f d g1 s with
      | none => none
      | some none => matchG f d (.oneOf gs) s
      | some (some r) => some (some r)
    | .delimited g1 =>
      match matchG f d g1 s with
      | none => none
      | some none => some none
      | some (some r) =>
        match matchG f d (.delimitedRest g1) r.rest with
        | none => none
        | some none => some none
        | some (some r2) => some (some ⟨r.matched ++ r2.matched, r2.rest⟩)
    | .delimitedRest g1 =>
      let p := splitTrivia s
      match matchG f d (.ref "CommaSegment") p.2 with
      | none => none
      | some none => some (some ⟨[], s⟩)
      | some (some rc) =>
        let q := splitTrivia rc.rest
        match matchG f d g1 q.2 with
        | none => none
        | some none => some (some ⟨[], s⟩)
        | some (some ri) =>
          match matchG f d (.delimitedRest g1) ri.rest with
          | none => none
          | some none => some none
          | some (some r2) =>
            some (some ⟨p.1 ++ rc.matched ++ q.1 ++ ri.matched ++ r2.matched, r2.rest⟩)
    | .bracketed items kind =>
      match bracketClasses d kind with
      | none => some none
      | some cls =>
        match s with
        | .leaf c r :: rest =>
          if c = cls.1 then
            match findClose cls.1 cls.2 rest 0 with
            | none => some none
            | some q =>
              match matchG f d (.seq items) q.1 with
              | none => none
              | some none => some none
              | some (some ri) =>
                if allTrivia ri.rest then
                  some (some ⟨[.node (brTag kind)
                    (.leaf c r :: (ri.matched ++ ri.rest ++ [q.2.1]))], q.2.2⟩)
                else some none
          else some none
        | _ => some none
    | .startsWith g1 =>
      match matchG f d g1 s with
      | none => none
      | some none => some none
      | some (some _) => some (some ⟨s, []⟩)
    | .greedyUntil t =>
      match s with
      | [] => some (some ⟨[], []⟩)
      | x :: xs =>
        match matchG f d t s with
        | none => none
        | some (some _) => some (some ⟨[], s⟩)
        | some none =>
          match matchG f d (.greedyUntil t) xs with
          | none => none
          | some none => some none
          | some (some r) => some (some ⟨x :: r.matched, r.rest⟩)

/-- Shorthand for a bare keyword terminal (a quoted string in the source's
Sequence/OneOf argument lists, or Ref.keyword). -/
def K (k : String) : Grammar := .kw k

/-- Shorthand for a named reference (Ref in the source). -/
def R (n : String) : Grammar := .ref n

/-- Mandatory item of a sequence. -/
def req (g : Grammar) : Grammar × Bool := (g, false)

/-- Item of a sequence marked optional=True in the source. -/
def opt (g : Grammar) : Grammar × Bool := (g, true)

/-- Rule binding for a plain grammar (dialect.add entry): no type tag, no
separate full grammar. -/
def gram (g : Grammar) : RuleDef := ⟨none, g, none⟩

/-- Rule binding for a segment class with only a match_grammar. -/
def segRule (t : String) (g : Grammar) : RuleDef := ⟨some t, g, none⟩

/-- ANSI original of DatatypeSegment.  Modelled from the spec: the parent
dialect's datatype rule, which knows nothing of Hive's nested
ARRAY/MAP/STRUCT/UNIONTYPE angle-bracket forms; the hive dialect replaces
this binding. -/
def ansiDatatypeSegment : RuleDef :=
  segRule "data_type"
    (.oneOf [K "INT", K "INTEGER", K "VARCHAR", K "CHAR", K "BOOLEAN",
             K "DATE", K "TIMESTAMP"])

/-- ANSI original of CreateTableStatementSegment.  Modelled from the spec:
the parent's plain CREATE TABLE rule, replaced by the hive dialect. -/
def ansiCreateTableStatementSegment : RuleDef :=
  ⟨some "create_table_statement",
   .startsWith (.seq [req (K "CREATE"), req (K "TABLE")]),
   some (.seq [req (K "CREATE"), req (K "TABLE"),
     opt (R "IfNotExistsGrammar"),
     req (R "TableReferenceSegment"),
     req (.bracketed [req (.delimited (R "ColumnDefinitionSegment"))] "round")])⟩

/-- ANSI original of CreateDatabaseStatementSegment.  Modelled from the
spec; replaced by the hive dialect. -/
def ansiCreateDatabaseStatementSegment : RuleDef :=
  segRule "create_database_statement"
    (.seq [req (K "CREATE"), req (K "DATABASE"), opt (R "IfNotExistsGrammar"),
           req (R "DatabaseReferenceSegment")])

/-- ANSI original of DropStatementSegment.  Modelled from the spec;
replaced by the hive dialect. -/
def ansiDropStatementSegment : RuleDef :=
  segRule "drop_statement"
    (.seq [req (K "DROP"), req (K "TABLE"), opt (R "IfExistsGrammar"),
           req (R "TableReferenceSegment")])

/-- ANSI original of InsertStatementSegment.  Modelled from the spec;
replaced by the hive dialect. -/
def ansiInsertStatementSegment : RuleDef :=
  segRule "insert_statement"
    (.seq [req (K "INSERT"), req (K "INTO"), req (R "TableReferenceSegment"),
           req (R "SelectStatementSegment")])

/-- ANSI original of StatementSegment.  Modelled from the spec: greedy
statement-extent recognition plus an ordered alternation over the parent's
statement kinds; replaced by the hive dialect. -/
def ansiStatementSegment : RuleDef :=
  ⟨some "statement",
   .greedyUntil (R "SemicolonSegment"),
   some (.oneOf [R "CreateDatabaseStatementSegment",
                 R "CreateTableStatementSegment",
                 R "DropStatementSegment",
                 R "InsertStatementSegment",
                 R "SelectStatementSegment"])⟩

/-- ANSI parent dialect.  Modelled from the spec: the base dialect's rule
bindings referenced by the Hive dialect data (terminals for punctuation
and literals, identifier/reference rules, IF [NOT] EXISTS, column
definitions, SELECT/FROM skeletons and the parent statement registry),
its reserved-keyword set and its round/square bracket pairs.  The parent
does not know the angle bracket pair. -/
def ansi_dialect : Dialect :=
  { name := "ansi"
    rules :=
      [("SemicolonSegment", gram (.tok .semi)),
       ("CommaSegment", gram (.tok .comma)),
       ("EqualsSegment", gram (.tok .equalsTok)),
       ("ColonSegment", gram (.tok .colon)),
       ("LessThanSegment", gram (.tok .lt)),
       ("GreaterThanSegment", gram (.tok .gt)),
       ("StartBracketSegment", gram (.tok .lparen)),
       ("EndBracketSegment", gram (.tok .rparen)),
       ("QuotedLiteralSegment", gram (.tok .squote)),
       ("NumericLiteralSegment", gram (.tok .numlit)),
       ("NakedIdentifierSegment", gram .nakedIdent),
       ("ColumnReferenceSegment", segRule "column_reference" (R "NakedIdentifierSegment")),
       ("TableReferenceSegment", segRule "table_reference" (R "NakedIdentifierSegment")),
       ("DatabaseReferenceSegment", segRule "database_reference" (R "NakedIdentifierSegment")),
       ("LiteralGrammar", gram (.oneOf [R "QuotedLiteralSegment", R "NumericLiteralSegment"])),
       ("IfNotExistsGrammar", gram (.seq [req (K "IF"), req (K "NOT"), req (K "EXISTS")])),
       ("IfExistsGrammar", gram (.seq [req (K "IF"), req (K "EXISTS")])),
       ("ColumnDefinitionSegment",
         segRule "column_definition"
           (.seq [req (R "NakedIdentifierSegment"), req (R "DatatypeSegment")])),
       ("TableConstraintSegment",
         segRule "table_constraint"
           (.seq [req (K "PRIMARY"), req (K "KEY"),
                  req (R "BracketedColumnReferenceListGrammar")])),
       ("BracketedColumnReferenceListGrammar",
         gram (.bracketed [req (.delimited (R "ColumnReferenceSegment"))] "round")),
       ("FromClauseSegment",
         segRule "from_clause" (.seq [req (K "FROM"), req (R "TableReferenceSegment")])),
       ("SelectStatementSegment",
         segRule "select_statement"
           (.seq [req (K "SELECT"), req (.delimited (R "ColumnReferenceSegment")),
                  opt (R "FromClauseSegment")])),
       ("DatatypeSegment", ansiDatatypeSegment),
       ("CreateDatabaseStatementSegment", ansiCreateDatabaseStatementSegment),
       ("CreateTableStatementSegment", ansiCreateTableStatementSegment),
       ("DropStatementSegment", ansiDropStatementSegment),
       ("InsertStatementSegment", ansiInsertStatementSegment),
       ("StatementSegment", ansiStatementSegment)]
    reserved_keywords :=
      ["AND", "AS", "BY", "CASE", "CREATE", "DROP", "ELSE", "END", "FALSE",
       "FROM", "FULL", "GROUP", "HAVING", "INSERT", "INTO", "JOIN", "NOT",
       "NULL", "ON", "OR", "ORDER", "SELECT", "TABLE", "THEN", "TRUE",
       "UNION", "USING", "WHEN", "WHERE"]
    unreserved_keywords := ["IF", "EXISTS", "USE"]
    bracket_pairs :=
      [("round", "StartBracketSegment", "EndBracketSegment", true),
       ("square", "StartSquareBracketSegment", "EndSquareBracketSegment", true)] }

/-- Hive reserved keyword word-list.  Modelled from the spec: the literal
per-dialect keyword word-lists are opaque data tables outside the core;
this is a small representative table. -/
def RESERVED_KEYWORDS : List String :=
  ["COMMIT", "CONF", "EXCHANGE", "REDUCE", "ROLLBACK"]

/-- Hive unreserved keyword word-list.  Modelled from the spec, as an
opaque data table. -/
def UNRESERVED_KEYWORDS : List String :=
  ["AVRO", "DBPROPERTIES", "INPATH", "JSONFILE", "MANAGEDLOCATION", "ORC",
   "OVERWRITE", "PARQUET", "RCFILE", "SEQUENCEFILE", "SERDEPROPERTIES",
   "TBLPROPERTIES", "TEXTFILE"]

/-- Transcribed from dialect_hive.py: DoubleQuotedLiteralSegment
(NamedSegment.make of the double_quote lexical class). -/
def DoubleQuotedLiteralSegment : RuleDef := gram (.tok .dquote)

/-- Transcribed from dialect_hive.py: SingleOrDoubleQuotedLiteralGrammar. -/
def SingleOrDoubleQuotedLiteralGrammar : RuleDef :=
  gram (.oneOf [R "QuotedLiteralSegment", R "DoubleQuotedLiteralSegment"])

/-- Transcribed from dialect_hive.py: LocationGrammar. -/
def LocationGrammar : RuleDef :=
  gram (.seq [req (K "LOCATION"), req (R "QuotedLiteralSegment")])

/-- Transcribed from dialect_hive.py: PropertyGrammar. -/
def PropertyGrammar : RuleDef :=
  gram (.seq [req (R "SingleOrDoubleQuotedLiteralGrammar"),
              req (R "EqualsSegment"),
              req (R "SingleOrDoubleQuotedLiteralGrammar")])

/-- Transcribed from dialect_hive.py: BracketedPropertyListGrammar. -/
def BracketedPropertyListGrammar : RuleDef :=
  gram (.bracketed [req (.delimited (R "PropertyGrammar"))] "round")

/-- Transcribed from dialect_hive.py: TablePropertiesGrammar. -/
def TablePropertiesGrammar : RuleDef :=
  gram (.seq [req (K "TBLPROPERTIES"), req (R "BracketedPropertyListGrammar")])

/-- Transcribed from dialect_hive.py: SerdePropertiesGrammar. -/
def SerdePropertiesGrammar : RuleDef :=
  gram (.seq [req (K "WITH"), req (K "SERDEPROPERTIES"),
              req (R "BracketedPropertyListGrammar")])

/-- Transcribed from dialect_hive.py: TerminatedByGrammar. -/
def TerminatedByGrammar : RuleDef :=
  gram (.seq [req (K "TERMINATED"), req (K "BY"), req (R "QuotedLiteralSegment")])

/-- Transcribed from dialect_hive.py: FileFormatGrammar. -/
def FileFormatGrammar : RuleDef :=
  gram (.oneOf [K "SEQUENCEFILE", K "TEXTFILE", K "RCFILE", K "ORC",
    K "PARQUET", K "AVRO", K "JSONFILE",
    .seq [req (K "INPUTFORMAT"), req (R "SingleOrDoubleQuotedLiteralGrammar"),
          req (K "OUTPUTFORMAT"), req (R "SingleOrDoubleQuotedLiteralGrammar")]])

/-- Transcribed from dialect_hive.py: StoredAsGrammar. -/
def StoredAsGrammar : RuleDef :=
  gram (.seq [req (K "STORED"), req (K "AS"), req (R "FileFormatGrammar")])

/-- Transcribed from dialect_hive.py: StoredByGrammar. -/
def StoredByGrammar : RuleDef :=
  gram (.seq [req (K "STORED"), req (K "BY"),
              req (R "SingleOrDoubleQuotedLiteralGrammar"),
              opt (R "SerdePropertiesGrammar")])

/-- Transcribed from dialect_hive.py: StorageFormatGrammar. -/
def StorageFormatGrammar : RuleDef :=
  gram (.oneOf [.seq [opt (R "RowFormatClauseSegment"), opt (R "StoredAsGrammar")],
                R "StoredByGrammar"])

/-- Transcribed from dialect_hive.py: CommentGrammar. -/
def CommentGrammar : RuleDef :=
  gram (.seq [req (K "COMMENT"), req (R "SingleOrDoubleQuotedLiteralGrammar")])

/-- Transcribed from dialect_hive.py: PartitionSpecGrammar. -/
def PartitionSpecGrammar : RuleDef :=
  gram (.seq [req (K "PARTITION"),
    req (.bracketed
      [req (.delimited (.seq [req (R "ColumnReferenceSegment"),
                              req (R "EqualsSegment"),
                              req (R "LiteralGrammar")]))] "round")])

/-- Transcribed from dialect_hive.py: InsertDynamicPartitionSpecGrammar. -/
def InsertDynamicPartitionSpecGrammar : RuleDef :=
  gram (.seq [req (K "PARTITION"),
    req (.delimited (.seq [req (R "NakedIdentifierSegment"),
      opt (.seq [req (R "EqualsSegment"), req (R "NakedIdentifierSegment")])]))])

/-- Transcribed from dialect_hive.py: InsertPartitionSpecGrammar. -/
def InsertPartitionSpecGrammar : RuleDef :=
  gram (.seq [req (K "PARTITION"),
    req (.delimited (.seq [req (R "NakedIdentifierSegment"),
                           req (R "EqualsSegment"),
                           req (R "NakedIdentifierSegment")]))])

/-- Transcribed from dialect_hive.py: InsertNormalOrDynamicPartitionSpecGrammar. -/
def InsertNormalOrDynamicPartitionSpecGrammar : RuleDef :=
  gram (.oneOf [R "InsertDynamicPartitionSpecGrammar",
                R "InsertPartitionSpecGrammar"])

/-- Transcribed from dialect_hive.py: LoadDataStatementSegment. -/
def LoadDataStatementSegment : RuleDef :=
  ⟨some "load_data_statement",
   .startsWith (.seq [req (K "LOAD"), req (K "DATA")]),
   some (.seq [req (K "LOAD"), req (K "DATA"), opt (K "LOCAL"),
     req (K "INPATH"), req (R "QuotedLiteralSegment"), opt (K "OVERWRITE"),
     req (K "INTO"), req (K "TABLE"), req (R "TableReferenceSegment"),
     opt (R "InsertPartitionSpecGrammar"),
     opt (.seq [req (K "INPUTFORMAT"), req (R "QuotedLiteralSegment"),
                req (K "SERDE"), req (R "QuotedLiteralSegment")])])⟩

/-- Transcribed from dialect_hive.py: CreateDatabaseStatementSegment
(registered with replace=True). -/
def CreateDatabaseStatementSegment : RuleDef :=
  segRule "create_database_statement"
    (.seq [req (K "CREATE"), req (.oneOf [K "DATABASE", K "SCHEMA"]),
      opt (R "IfNotExistsGrammar"), req (R "DatabaseReferenceSegment"),
      opt (R "CommentGrammar"), opt (R "LocationGrammar"),
      opt (.seq [req (K "MANAGEDLOCATION"), req (R "QuotedLiteralSegment")]),
      opt (.seq [req (K "WITH"), req (K "DBPROPERTIES"),
                 req (R "BracketedPropertyListGrammar")])])

/-- Transcribed from dialect_hive.py: CreateTableStatementSegment
(registered with replace=True). -/
def CreateTableStatementSegment : RuleDef :=
  ⟨some "create_table_statement",
   .startsWith (.seq [req (K "CREATE"), opt (K "EXTERNAL"),
                      opt (K "TEMPORARY"), req (K "TABLE")]),
   some (.seq [req (K "CREATE"), opt (K "EXTERNAL"), opt (K "TEMPORARY"),
     req (K "TABLE"), opt (R "IfNotExistsGrammar"),
     req (R "TableReferenceSegment"),
     req (.oneOf [
       .seq [
         req (.bracketed
           [req (.delimited (.oneOf [R "TableConstraintSegment",
                                     R "ColumnDefinitionSegment"]))] "round"),
         opt (R "CommentGrammar"),
         opt (.seq [req (K "PARTITIONED"), req (K "BY"),
           req (.bracketed [req (.delimited (R "ColumnDefinitionSegment"))] "round")]),
         opt (.seq [req (K "CLUSTERED"), req (K "BY"),
           req (R "BracketedColumnReferenceListGrammar"),
           opt (.seq [req (K "SORTED"), req (K "BY"),
             req (.bracketed
               [req (.delimited (.seq [req (R "ColumnReferenceSegment"),
                                       opt (.oneOf [K "ASC", K "DESC"])]))] "round")]),
           req (K "INTO"), req (R "NumericLiteralSegment"), req (K "BUCKETS")]),
         opt (R "SkewedByClauseSegment"),
         opt (R "StorageFormatGrammar"),
         opt (R "LocationGrammar"),
         opt (R "TablePropertiesGrammar"),
         opt (.seq [req (K "AS"), req (R "SelectStatementSegment")])],
       .seq [req (K "LIKE"), req (R "TableReferenceSegment"),
             opt (R "LocationGrammar")]])])⟩

/-- Transcribed from dialect_hive.py: PrimitiveTypeSegment. -/
def PrimitiveTypeSegment : RuleDef :=
  segRule "primitive_type"
    (.oneOf [K "TINYINT", K "SMALLINT", K "INT", K "BIGINT", K "BOOLEAN",
      K "FLOAT", .seq [req (K "DOUBLE"), opt (K "PRECISION")],
      K "STRING", K "BINARY", K "TIMESTAMP",
      .seq [req (K "DECIMAL"),
            opt (.bracketed [req (R "NumericLiteralSegment"),
                             req (R "CommaSegment"),
                             req (R "NumericLiteralSegment")] "round")],
      K "DATE", K "VARCHAR", K "CHAR"])

/-- Transcribed from dialect_hive.py: DatatypeSegment (registered with
replace=True). -/
def DatatypeSegment : RuleDef :=
  segRule "data_type"
    (.oneOf [
      R "PrimitiveTypeSegment",
      .seq [req (K "ARRAY"), req (.bracketed [req (R "DatatypeSegment")] "angle")],
      .seq [req (K "MAP"),
            req (.bracketed [req (R "PrimitiveTypeSegment"),
                             req (R "CommaSegment"),
                             req (R "DatatypeSegment")] "angle")],
      .seq [req (K "STRUCT"),
            req (.bracketed
              [req (.delimited (.seq [req (R "NakedIdentifierSegment"),
                                      req (R "ColonSegment"),
                                      req (R "DatatypeSegment"),
                                      opt (R "CommentGrammar")]))] "angle")],
      .seq [req (K "UNIONTYPE"),
            req (.bracketed [req (.delimited (R "DatatypeSegment"))] "angle")]])

/-- Transcribed from dialect_hive.py: SkewedByClauseSegment. -/
def SkewedByClauseSegment : RuleDef :=
  segRule "skewed_by_clause"
    (.seq [req (K "SKEWED"), req (K "BY"),
      req (R "BracketedColumnReferenceListGrammar"), req (K "ON"),
      req (.bracketed
        [req (.delimited (.oneOf [R "LiteralGrammar",
           .bracketed [req (.delimited (R "LiteralGrammar"))] "round"]))] "round"),
      opt (.seq [req (K "STORED"), req (K "AS"), req (K "DIRECTORIES")])])

/-- Transcribed from dialect_hive.py: RowFormatClauseSegment. -/
def RowFormatClauseSegment : RuleDef :=
  segRule "row_format_clause"
    (.seq [req (K "ROW"), req (K "FORMAT"),
      req (.oneOf [
        .seq [req (K "DELIMITED"),
          opt (.seq [req (K "FIELDS"), req (R "TerminatedByGrammar"),
            opt (.seq [req (K "ESCAPED"), req (K "BY"),
                       req (R "QuotedLiteralSegment")])]),
          opt (.seq [req (K "COLLECTION"), req (K "ITEMS"),
                     req (R "TerminatedByGrammar")]),
          opt (.seq [req (K "MAP"), req (K "KEYS"), req (R "TerminatedByGrammar")]),
          opt (.seq [req (K "LINES"), req (R "TerminatedByGrammar")]),
          opt (.seq [req (K "NULL"), req (K "DEFINED"), req (K "AS"),
                     req (R "QuotedLiteralSegment")])],
        .seq [req (K "SERDE"), req (R "SingleOrDoubleQuotedLiteralGrammar"),
              opt (R "SerdePropertiesGrammar")]])])

/-- Transcribed from dialect_hive.py: AlterDatabaseStatementSegment. -/
def AlterDatabaseStatementSegment : RuleDef :=
  segRule "alter_database_statement"
    (.seq [req (K "ALTER"), req (.oneOf [K "DATABASE", K "SCHEMA"]),
      req (R "DatabaseReferenceSegment"), req (K "SET"),
      req (.oneOf [
        .seq [req (K "DBPROPERTIES"), req (R "BracketedPropertyListGrammar")],
        .seq [req (K "OWNER"), req (.oneOf [K "USER", K "ROLE"]),
              req (R "QuotedLiteralSegment")],
        R "LocationGrammar",
        .seq [req (K "MANAGEDLOCATION"), req (R "QuotedLiteralSegment")]])])

/-- Transcribed from dialect_hive.py: DropStatementSegment (registered with
replace=True). -/
def DropStatementSegment : RuleDef :=
  ⟨some "drop_statement",
   .startsWith (K "DROP"),
   some (.oneOf [R "DropDatabaseStatementSegment", R "DropTableStatementSegment"])⟩

/-- Transcribed from dialect_hive.py: DropDatabaseStatementSegment.  Note
the source gives it the type tag drop_table_statement. -/
def DropDatabaseStatementSegment : RuleDef :=
  segRule "drop_table_statement"
    (.seq [req (K "DROP"), req (.oneOf [K "DATABASE", K "SCHEMA"]),
      opt (R "IfExistsGrammar"), req (R "DatabaseReferenceSegment"),
      opt (.oneOf [K "RESTRICT", K "CASCADE"])])

/-- Transcribed from dialect_hive.py: DropTableStatementSegment. -/
def DropTableStatementSegment : RuleDef :=
  segRule "drop_table_statement"
    (.seq [req (K "DROP"), req (K "TABLE"), opt (R "IfExistsGrammar"),
      req (R "TableReferenceSegment"), opt (K "PURGE")])

/-- Transcribed from dialect_hive.py: TruncateStatementSegment. -/
def TruncateStatementSegment : RuleDef :=
  ⟨some "truncate_table",
   .startsWith (K "TRUNCATE"),
   some (.seq [req (K "TRUNCATE"), opt (K "TABLE"),
     req (R "TableReferenceSegment"), opt (R "PartitionSpecGrammar")])⟩

/-- Transcribed from dialect_hive.py: UseStatementSegment. -/
def UseStatementSegment : RuleDef :=
  segRule "use_statement" (.seq [req (K "USE"), req (R "DatabaseReferenceSegment")])

/-- Transcribed from dialect_hive.py: InsertStatementFragmentSegment. -/
def InsertStatementFragmentSegment : RuleDef :=
  segRule "insert_statement_fragment"
    (.seq [req (K "INSERT"),
      req (.oneOf [
        .seq [req (K "OVERWRITE"), req (K "TABLE"), req (R "TableReferenceSegment"),
              opt (R "InsertNormalOrDynamicPartitionSpecGrammar"),
              opt (R "IfNotExistsGrammar")],
        .seq [req (K "INTO"), req (K "TABLE"), req (R "TableReferenceSegment"),
              opt (R "InsertNormalOrDynamicPartitionSpecGrammar")]])])

/-- Transcribed from dialect_hive.py: InsertStatementSegment (registered
with replace=True). -/
def InsertStatementSegment : RuleDef :=
  segRule "insert_statement"
    (.oneOf [
      .seq [req (R "InsertStatementFragmentSegment"), req (R "FromClauseSegment")],
      .seq [req (R "FromClauseSegment"), req (R "InsertStatementFragmentSegment")]])

/-- Transcribed from dialect_hive.py: StatementSegment (registered with
replace=True): GreedyUntil the semicolon as match_grammar, ordered
alternation over the registered statement kinds as parse_grammar. -/
def StatementSegment : RuleDef :=
  ⟨some "statement",
   .greedyUntil (R "SemicolonSegment"),
   some (.oneOf [R "CreateDatabaseStatementSegment",
                 R "AlterDatabaseStatementSegment",
                 R "CreateTableStatementSegment",
                 R "DropStatementSegment",
                 R "TruncateStatementSegment",
                 R "UseStatementSegment",
                 R "LoadDataStatementSegment",
                 R "InsertStatementSegment"])⟩

/-- Hive dialect, built from the ANSI parent by the exact operation
sequence of dialect_hive.py: copy_as, keyword-set updates, the angle
bracket-pair addition, the grammar additions and the segment
registrations in source order. -/
def hive_dialect : Dialect :=
  (((ansi_dialect.copy_as "hive").updateUnreserved
        UNRESERVED_KEYWORDS).updateReserved RESERVED_KEYWORDS).updateBrackets
      [("angle", "LessThanSegment", "GreaterThanSegment", false)]
    |>.addRule "DoubleQuotedLiteralSegment" DoubleQuotedLiteralSegment
    |>.addRule "SingleOrDoubleQuotedLiteralGrammar" SingleOrDoubleQuotedLiteralGrammar
    |>.addRule "LocationGrammar" LocationGrammar
    |>.addRule "PropertyGrammar" PropertyGrammar
    |>.addRule "BracketedPropertyListGrammar" BracketedPropertyListGrammar
    |>.addRule "TablePropertiesGrammar" TablePropertiesGrammar
    |>.addRule "SerdePropertiesGrammar" SerdePropertiesGrammar
    |>.addRule "TerminatedByGrammar" TerminatedByGrammar
    |>.addRule "FileFormatGrammar" FileFormatGrammar
    |>.addRule "StoredAsGrammar" StoredAsGrammar
    |>.addRule "StoredByGrammar" StoredByGrammar
    |>.addRule "StorageFormatGrammar" StorageFormatGrammar
    |>.addRule "CommentGrammar" CommentGrammar
    |>.addRule "PartitionSpecGrammar" PartitionSpecGrammar
    |>.addRule "InsertDynamicPartitionSpecGrammar" InsertDynamicPartitionSpecGrammar
    |>.addRule "InsertPartitionSpecGrammar" InsertPartitionSpecGrammar
    |>.addRule "InsertNormalOrDynamicPartitionSpecGrammar"
        InsertNormalOrDynamicPartitionSpecGrammar
    |>.addRule "LoadDataStatementSegment" LoadDataStatementSegment
    |>.replaceRule "CreateDatabaseStatementSegment" CreateDatabaseStatementSegment
    |>.replaceRule "CreateTableStatementSegment" CreateTableStatementSegment
    |>.addRule "PrimitiveTypeSegment" PrimitiveTypeSegment
    |>.replaceRule "DatatypeSegment" DatatypeSegment
    |>.addRule "SkewedByClauseSegment" SkewedByClauseSegment
    |>.addRule "RowFormatClauseSegment" RowFormatClauseSegment
    |>.addRule "AlterDatabaseStatementSegment" AlterDatabaseStatementSegment
    |>.replaceRule "DropStatementSegment" DropStatementSegment
    |>.addRule "DropDatabaseStatementSegment" DropDatabaseStatementSegment
    |>.addRule "DropTableStatementSegment" DropTableStatementSegment
    |>.addRule "TruncateStatementSegment" TruncateStatementSegment
    |>.addRule "UseStatementSegment" UseStatementSegment
    |>.addRule "InsertStatementFragmentSegment" InsertStatementFragmentSegment
    |>.replaceRule "InsertStatementSegment" InsertStatementSegment
    |>.replaceRule "StatementSegment" StatementSegment

/-- Ordered attempt of the registered statement kinds on an isolated
statement region.  Modelled from the spec (section 4.3): each kind's full
expression is tried in dialect-declared order; acceptance requires full
consumption of the region modulo trailing trivia; if none accepts, the
whole region becomes a single unparsable node holding its text verbatim.
The outer Option layer is fuel exhaustion. -/
def tryStatements (f : Nat) (d : Dialect) :
    List Grammar → List Segment → Option (List Segment)
  | [], region =>
    if allTrivia region then some region
    else some [Segment.node "unparsable" region]
  | g :: gs, region =>
    match matchG f d g region with
    | none => none
    | some none => tryStatements f d gs region
    | some (some r) =>
      if allTrivia r.rest then some (r.matched ++ r.rest)
      else tryStatements f d gs region

/-- Parse of one isolated statement region against the dialect's
StatementSegment registry.  Modelled from the spec (section 4.3). -/
def parseRegion (f : Nat) (d : Dialect) (region : List Segment) :
    Option (List Segment) :=
  match d.lookup "StatementSegment" with
  | some rd =>
    match rd.parseGrammar with
    | some (.oneOf opts) => tryStatements f d opts region
    | _ => some [Segment.node "unparsable" region]
  | none => some [Segment.node "unparsable" region]

/-- File-level driver.  Modelled from the spec: each statement's extent is
recognized with the StatementSegment recognition grammar (GreedyUntil the
statement separator), the region is decomposed by parseRegion, the
separator token is kept verbatim at top level, and the remainder is
processed the same way.  A none result means fuel exhaustion only; a
produced tree is total, error or not. -/
def parseFile : Nat → Dialect → List Segment → Option (List Segment)
  | 0, _, _ => none
  | f + 1, d, s =>
    match s with
    | [] => some []
    | _ =>
      match d.lookup "StatementSegment" with
      | none => none
      | some rd =>
        match matchG f d rd.matchGrammar s with
        | none => none
        | some none => none
        | some (some r) =>
          match parseRegion f d r.matched with
          | none => none
          | some stmts =>
            match r.rest with
            | [] => some stmts
            | t :: rest' =>
              match parseFile f d rest' with
              | none => none
              | some out => some (stmts ++ t :: out)

/-! Basic structural lemmas. -/

theorem rawL_append (a b : List Segment) : rawL (a ++ b) = rawL a ++ rawL b := by
  induction a with
  | nil => simp [rawL]
  | cons x xs ih => simp [rawL, ih]

theorem splitTrivia_append (s : List Segment) :
    (splitTrivia s).1 ++ (splitTrivia s).2 = s := by
  induction s with
  | nil => simp [splitTrivia]
  | cons x xs ih =>
    by_cases h : isTrivia x = true
    · simp [splitTrivia, h, ih]
    · simp [splitTrivia, h]

theorem splitTrivia_len (s : List Segment) :
    (splitTrivia s).2.length ≤ s.length := by
  induction s with
  | nil => simp [splitTrivia]
  | cons x xs ih =>
    by_cases h : isTrivia x = true
    · simp [splitTrivia, h]
      exact Nat.le_succ_of_le ih
    · simp [splitTrivia, h]

theorem findClose_split (oc cc : TokClass) :
    ∀ (s : List Segment) (dep : Nat) q, findClose oc cc s dep = some q →
      s = q.1 ++ q.2.1 :: q.2.2 := by
  intro s
  induction s with
  | nil => intro dep q h; simp [findClose] at h
  | cons x xs ih =>
    intro dep q h
    cases x with
    | leaf c r =>
      simp only [findClose] at h
      split at h
      · split at h
        · cases h; simp
        · rcases Option.map_eq_some'.mp h with ⟨q', hq', hfq⟩
          subst hfq
          simp [ih _ _ hq']
      · split at h
        · rcases Option.map_eq_some'.mp h with ⟨q', hq', hfq⟩
          subst hfq
          simp [ih _ _ hq']
        · rcases Option.map_eq_some'.mp h with ⟨q', hq', hfq⟩
          subst hfq
          simp [ih _ _ hq']
    | node t cs =>
      simp only [findClose] at h
      rcases Option.map_eq_some'.mp h with ⟨q', hq', hfq⟩
      subst hfq
      simp [ih _ _ hq']

/-- Soundness statement for one fuel level: every genuine match splits the
input's raw text exactly (losslessness at the matcher level) and never
lengthens the remainder. -/
def MatchSound (f : Nat) : Prop :=
  ∀ d g s r, matchG f d g s = some (some r) →
    rawL r.matched ++ rawL r.rest = rawL s ∧ r.rest.length ≤ s.length

theorem matchSound_all : ∀ f, MatchSound f := by
  intro f
  induction f with
  | zero => intro d g s r h; simp [matchG] at h
  | succ f ih =>
    intro d g s r h
    cases g with
    | kw k =>
      simp only [matchG] at h
      split at h
      · split at h
        · simp only [Option.some.injEq] at h
          subst h
          simp [rawL, Segment.raw]
        · simp at h
      · simp at h
    | tok c =>
      simp only [matchG] at h
      split at h
      · split at h
        · simp only [Option.some.injEq] at h
          subst h
          simp [rawL, Segment.raw]
        · simp at h
      · simp at h
    | nakedIdent =>
      simp only [matchG] at h
      split at h
      · split at h
        · simp at h
        · simp only [Option.some.injEq] at h
          subst h
          simp [rawL, Segment.raw]
      · simp at h
    | ref n =>
      simp only [matchG] at h
      split at h
      · simp at h
      · rename_i rd _
        split at h
        · simp at h
        · simp at h
        · rename_i r0 hsub
          obtain ⟨A1, A2⟩ := ih d _ s r0 hsub
          split at h
          · simp only [Option.some.injEq] at h
            subst h
            refine ⟨?_, A2⟩
            simpa [rawL, Segment.raw] using A1
          · simp only [Option.some.injEq] at h
            subst h
            exact ⟨A1, A2⟩
    | seq items =>
      cases items with
      | nil =>
        simp only [matchG] at h
        simp only [Option.some.injEq] at h
        subst h
        simp [rawL]
      | cons hd its =>
        obtain ⟨g1, o⟩ := hd
        simp only [matchG] at h
        split at h
        · simp at h
        · -- optional-item branch or failure
          split at h
          · obtain ⟨A1, A2⟩ := ih d _ s r h
            exact ⟨A1, A2⟩
          · simp at h
        · rename_i r1 h1
          split at h
          · simp at h
          · simp at h
          · rename_i r2 h2
            simp only [Option.some.injEq] at h
            subst h
            obtain ⟨A1, A2⟩ := ih d _ _ r1 h1
            obtain ⟨B1, B2⟩ := ih d _ _ r2 h2
            have hs := splitTrivia_append s
            have hl := splitTrivia_len s
            constructor
            · calc rawL ((splitTrivia s).1 ++ r1.matched ++ r2.matched) ++ rawL r2.rest
                  = rawL (splitTrivia s).1 ++
                      (rawL r1.matched ++ (rawL r2.matched ++ rawL r2.rest)) := by
                    simp [rawL_append]
                _ = rawL (splitTrivia s).1 ++ (rawL r1.matched ++ rawL r1.rest) := by
                    rw [B1]
                _ = rawL (splitTrivia s).1 ++ rawL (splitTrivia s).2 := by rw [A1]
                _ = rawL ((splitTrivia s).1 ++ (splitTrivia s).2) := by
                    rw [rawL_append]
                _ = rawL s := by rw [hs]
            · dsimp only
              omega
    | oneOf opts =>
      cases opts with
      | nil => simp only [matchG] at h; simp at h
      | cons g1 gs =>
        simp only [matchG] at h
        split at h
        · simp at h
        · exact ih d _ s r h
        · rename_i r0 h0
          simp only [Option.some.injEq] at h
          subst h
          exact ih d _ s r0 h0
    | delimited g1 =>
      simp only [matchG] at h
      split at h
      · simp at h
      · simp at h
      · rename_i r1 h1
        split at h
        · simp at h
        · simp at h
        · rename_i r2 h2
          simp only [Option.some.injEq] at h
          subst h
          obtain ⟨A1, A2⟩ := ih d _ _ r1 h1
          obtain ⟨B1, B2⟩ := ih d _ _ r2 h2
          constructor
          · calc rawL (r1.matched ++ r2.matched) ++ rawL r2.rest
                = rawL r1.matched ++ (rawL r2.matched ++ rawL r2.rest) := by
                  simp [rawL_append]
              _ = rawL r1.matched ++ rawL r1.rest := by rw [B1]
              _ = rawL s := A1
          · dsimp only
            omega
    | delimitedRest g1 =>
      simp only [matchG] at h
      split at h
      · simp at h
      · simp only [Option.some.injEq] at h
        subst h
        simp [rawL]
      · rename_i rc hc
        split at h
        · simp at h
        · simp only [Option.some.injEq] at h
          subst h
          simp [rawL]
        · rename_i ri hi
          split at h
          · simp at h
          · simp at h
          · rename_i r2 h2
            simp only [Option.some.injEq] at h
            subst h
            obtain ⟨A1, A2⟩ := ih d _ _ rc hc
            obtain ⟨B1, B2⟩ := ih d _ _ ri hi
            obtain ⟨C1, C2⟩ := ih d _ _ r2 h2
            have hs := splitTrivia_append s
            have hl := splitTrivia_len s
            have hs2 := splitTrivia_append rc.rest
            have hl2 := splitTrivia_len rc.rest
            constructor
            · calc rawL ((splitTrivia s).1 ++ rc.matched ++ (splitTrivia rc.rest).1 ++
                      ri.matched ++ r2.matched) ++ rawL r2.rest
                  = rawL (splitTrivia s).1 ++ (rawL rc.matched ++
                      (rawL (splitTrivia rc.rest).1 ++ (rawL ri.matched ++
                        (rawL r2.matched ++ rawL r2.rest)))) := by
                    simp [rawL_append]
                _ = rawL (splitTrivia s).1 ++ (rawL rc.matched ++
                      (rawL (splitTrivia rc.rest).1 ++ (rawL ri.matched ++ rawL ri.rest))) := by
                    rw [C1]
                _ = rawL (splitTrivia s).1 ++ (rawL rc.matched ++
                      (rawL (splitTrivia rc.rest).1 ++ rawL (splitTrivia rc.rest).2)) := by
                    rw [B1]
                _ = rawL (splitTrivia s).1 ++ (rawL rc.matched ++ rawL rc.rest) := by
                    rw [← rawL_append, hs2]
                _ = rawL (splitTrivia s).1 ++ rawL (splitTrivia s).2 := by rw [A1]
                _ = rawL s := by rw [← rawL_append, hs]
            · dsimp only
              omega
    | bracketed items kind =>
      simp only [matchG] at h
      split at h
      · simp at h
      · split at h
        · split at h
          · split at h
            · simp at h
            · rename_i q hq
              split at h
              · simp at h
              · simp at h
              · rename_i ri hi
                split at h
                · rename_i htriv
                  simp only [Option.some.injEq] at h
                  subst h
                  obtain ⟨A1, A2⟩ := ih d _ _ ri hi
                  have hsplit := findClose_split _ _ _ _ _ hq
                  constructor
                  · simp only [rawL, Segment.raw, rawL_append, List.append_nil,
                      List.append_assoc, List.nil_append]
                    rw [hsplit]
                    simp only [rawL_append, rawL, List.append_assoc]
                    rw [← List.append_assoc (rawL ri.matched), A1]
                  · rw [hsplit]
                    simp only [List.length_cons, List.length_append]
                    omega
                · simp at h
          · simp at h
        · simp at h
    | startsWith g1 =>
      simp only [matchG] at h
      split at h
      · simp at h
      · simp at h
      · simp only [Option.some.injEq] at h
        subst h
        simp [rawL]
    | greedyUntil t =>
      simp only [matchG] at h
      split at h
      · simp only [Option.some.injEq] at h
        subst h
        simp [rawL]
      · rename_i x xs
        split at h
        · simp at h
        · simp only [Option.some.injEq] at h
          subst h
          simp [rawL]
        · split at h
          · simp at h
          · simp at h
          · rename_i r0 h0
            simp only [Option.some.injEq] at h
            subst h
            obtain ⟨A1, A2⟩ := ih d _ _ r0 h0
            constructor
            · simp only [rawL, List.append_assoc]
              rw [A1]
            · simp only [List.length_cons]
              omega

/-! One-step unfolding equations for the matcher, stated with the inner
recursive calls intact so proofs can rewrite a single level at a time. -/

theorem matchG_kw_eq (f : Nat) (d : Dialect) (k : String) (s : List Segment) :
    matchG (f + 1) d (.kw k) s =
      (match s with
       | .leaf .word r :: rest =>
         if kwEq r k then some (some ⟨[.leaf .word r], rest⟩) else some none
       | _ => some none) := rfl

theorem matchG_tok_eq (f : Nat) (d : Dialect) (c : TokClass) (s : List Segment) :
    matchG (f + 1) d (.tok c) s =
      (match s with
       | .leaf c' r :: rest =>
         if c' = c then some (some ⟨[.leaf c' r], rest⟩) else some none
       | _ => some none) := rfl

theorem matchG_naked_eq (f : Nat) (d : Dialect) (s : List Segment) :
    matchG (f + 1) d .nakedIdent s =
      (match s with
       | .leaf .word r :: rest =>
         if d.reserved_keywords.any (fun k => kwEq r k) then some none
         else some (some ⟨[.leaf .word r], rest⟩)
       | _ => some none) := rfl

theorem matchG_ref_eq (f : Nat) (d : Dialect) (n : String) (s : List Segment) :
    matchG (f + 1) d (.ref n) s =
      (match d.lookup n with
       | none => some none
       | some rd =>
         match matchG f d (resolveG rd) s with
         | none => none
         | some none => some none
         | some (some r) =>
           match rd.typeTag with
           | some t => some (some ⟨[.node t r.matched], r.rest⟩)
           | none => some (some r)) := rfl

theorem matchG_seq_nil_eq (f : Nat) (d : Dialect) (s : List Segment) :
    matchG (f + 1) d (.seq []) s = some (some ⟨[], s⟩) := rfl

theorem matchG_seq_cons_eq (f : Nat) (d : Dialect) (g1 : Grammar) (o : Bool)
    (its : List (Grammar × Bool)) (s : List Segment) :
    matchG (f + 1) d (.seq ((g1, o) :: its)) s =
      (match matchG f d g1 (splitTrivia s).2 with
       | none => none
       | some none => if o then matchG f d (.seq its) s else some none
       | some (some r) =>
         match matchG f d (.seq its) r.rest with
         | none => none
         | some none => some none
         | some (some r2) =>
           some (some ⟨(splitTrivia s).1 ++ r.matched ++ r2.matched, r2.rest⟩)) := rfl

theorem matchG_oneOf_nil_eq (f : Nat) (d : Dialect) (s : List Segment) :
    matchG (f + 1) d (.oneOf []) s = some none := rfl

theorem matchG_oneOf_cons_eq (f : Nat) (d : Dialect) (g1 : Grammar)
    (gs : List Grammar) (s : List Segment) :
    matchG (f + 1) d (.oneOf (g1 :: gs)) s =
      (match matchG f d g1 s with
       | none => none
       | some none => matchG f d (.oneOf gs) s
       | some (some r) => some (some r)) := rfl

theorem matchG_delimited_eq (f : Nat) (d : Dialect) (g1 : Grammar)
    (s : List Segment) :
    matchG (f + 1) d (.delimited g1) s =
      (match matchG f d g1 s with
       | none => none
       | some none => some none
       | some (some r) =>
         match matchG f d (.delimitedRest g1) r.rest with
         | none => none
         | some none => some none
         | some (some r2) => some (some ⟨r.matched ++ r2.matched, r2.rest⟩)) := rfl

theorem matchG_delimitedRest_eq (f : Nat) (d : Dialect) (g1 : Grammar)
    (s : List Segment) :
    matchG (f + 1) d (.delimitedRest g1) s =
      (match matchG f d (.ref "CommaSegment") (splitTrivia s).2 with
       | none => none
       | some none => some (some ⟨[], s⟩)
       | some (some rc) =>
         match matchG f d g1 (splitTrivia rc.rest).2 with
         | none => none
         | some none => some (some ⟨[], s⟩)
         | some (some ri) =>
           match matchG f d (.delimitedRest g1) ri.rest with
           | none => none
           | some none => some none
           | some (some r2) =>
             some (some ⟨(splitTrivia s).1 ++ rc.matched ++ (splitTrivia rc.rest).1 ++
               ri.matched ++ r2.matched, r2.rest⟩)) := rfl

theorem matchG_bracketed_eq (f : Nat) (d : Dialect)
    (items : List (Grammar × Bool)) (kind : String) (s : List Segment) :
    matchG (f + 1) d (.bracketed items kind) s =
      (match bracketClasses d kind with
       | none => some none
       | some cls =>
         match s with
         | .leaf c r :: rest =>
           if c = cls.1 then
             match findClose cls.1 cls.2 rest 0 with
             | none => some none
             | some q =>
               match matchG f d (.seq items) q.1 with
               | none => none
               | some none => some none
               | some (some ri) =>
                 if allTrivia ri.rest then
                   some (some ⟨[.node (brTag kind)
                     (.leaf c r :: (ri.matched ++ ri.rest ++ [q.2.1]))], q.2.2⟩)
                 else some none
           else some none
         | _ => some none) := rfl

theorem matchG_startsWith_eq (f : Nat) (d : Dialect) (g1 : Grammar)
    (s : List Segment) :
    matchG (f + 1) d (.startsWith g1) s =
      (match matchG f d g1 s with
       | none => none
       | some none => some none
       | some (some _) => some (some ⟨s, []⟩)) := rfl

theorem matchG_greedy_nil_eq (f : Nat) (d : Dialect) (t : Grammar) :
    matchG (f + 1) d (.greedyUntil t) [] = some (some ⟨[], []⟩) := rfl

theorem matchG_greedy_cons_eq (f : Nat) (d : Dialect) (t : Grammar)
    (x : Segment) (xs : List Segment) :
    matchG (f + 1) d (.greedyUntil t) (x :: xs) =
      (match matchG f d t (x :: xs) with
       | none => none
       | some (some _) => some (some ⟨[], x :: xs⟩)
       | some none =>
         match matchG f d (.greedyUntil t) xs with
         | none => none
         | some none => some none
         | some (some r) => some (some ⟨x :: r.matched, r.rest⟩)) := rfl

/-- Monotonicity statement for one fuel step: a genuine result (match or
no-match) obtained with fuel f is reproduced with fuel f + 1; only
timeouts can change when fuel grows. -/
def MonoOK (f : Nat) : Prop :=
  ∀ d g s x, matchG f d g s = some x → matchG (f + 1) d g s = some x

theorem monoOK_all : ∀ f, MonoOK f := by
  intro f
  induction f with
  | zero => intro d g s x h; simp [matchG] at h
  | succ f ih =>
    intro d g s x h
    cases g with
    | kw k =>
      rw [matchG_kw_eq] at h ⊢
      exact h
    | tok c =>
      rw [matchG_tok_eq] at h ⊢
      exact h
    | nakedIdent =>
      rw [matchG_naked_eq] at h ⊢
      exact h
    | ref n =>
      rw [matchG_ref_eq] at h ⊢
      cases hL : d.lookup n with
      | none => simp only [hL] at h ⊢; exact h
      | some rd =>
        simp only [hL] at h ⊢
        cases hS : matchG f d (resolveG rd) s with
        | none => simp [hS] at h
        | some y =>
          have hS2 := ih d _ s y hS
          simp only [hS] at h
          simp only [hS2]
          exact h
    | seq items =>
      cases items with
      | nil => rw [matchG_seq_nil_eq] at h ⊢; exact h
      | cons hd its =>
        obtain ⟨g1, o⟩ := hd
        rw [matchG_seq_cons_eq] at h ⊢
        cases hS1 : matchG f d g1 (splitTrivia s).2 with
        | none => simp [hS1] at h
        | some y1 =>
          have hS1b := ih d _ _ y1 hS1
          simp only [hS1] at h
          simp only [hS1b]
          cases y1 with
          | none =>
            cases o with
            | false => exact h
            | true =>
              simp only [if_true] at h ⊢
              exact ih d _ _ x h
          | some r1 =>
            simp only at h ⊢
            cases hS2 : matchG f d (.seq its) r1.rest with
            | none => simp [hS2] at h
            | some y2 =>
              have hS2b := ih d _ _ y2 hS2
              simp only [hS2] at h
              simp only [hS2b]
              exact h
    | oneOf opts =>
      cases opts with
      | nil => rw [matchG_oneOf_nil_eq] at h ⊢; exact h
      | cons g1 gs =>
        rw [matchG_oneOf_cons_eq] at h ⊢
        cases hS1 : matchG f d g1 s with
        | none => simp [hS1] at h
        | some y1 =>
          have hS1b := ih d _ _ y1 hS1
          simp only [hS1] at h
          simp only [hS1b]
          cases y1 with
          | none => exact ih d _ _ x h
          | some r1 => exact h
    | delimited g1 =>
      rw [matchG_delimited_eq] at h ⊢
      cases hS1 : matchG f d g1 s with
      | none => simp [hS1] at h
      | some y1 =>
        have hS1b := ih d _ _ y1 hS1
        simp only [hS1] at h
        simp only [hS1b]
        cases y1 with
        | none => exact h
        | some r1 =>
          simp only at h ⊢
          cases hS2 : matchG f d (.delimitedRest g1) r1.rest with
          | none => simp [hS2] at h
          | some y2 =>
            have hS2b := ih d _ _ y2 hS2
            simp only [hS2] at h
            simp only [hS2b]
            exact h
    | delimitedRest g1 =>
      rw [matchG_delimitedRest_eq] at h ⊢
      cases hSc : matchG f d (.ref "CommaSegment") (splitTrivia s).2 with
      | none => simp [hSc] at h
      | some yc =>
        have hScb := ih d _ _ yc hSc
        simp only [hSc] at h
        simp only [hScb]
        cases yc with
        | none => exact h
        | some rc =>
          simp only at h ⊢
          cases hSi : matchG f d g1 (splitTrivia rc.rest).2 with
          | none => simp [hSi] at h
          | some yi =>
            have hSib := ih d _ _ yi hSi
            simp only [hSi] at h
            simp only [hSib]
            cases yi with
            | none => exact h
            | some ri =>
              simp only at h ⊢
              cases hS2 : matchG f d (.delimitedRest g1) ri.rest with
              | none => simp [hS2] at h
              | some y2 =>
                have hS2b := ih d _ _ y2 hS2
                simp only [hS2] at h
                simp only [hS2b]
                exact h
    | bracketed items kind =>
      rw [matchG_bracketed_eq] at h ⊢
      cases hB : bracketClasses d kind with
      | none => simp only [hB] at h ⊢; exact h
      | some cls =>
        simp only [hB] at h ⊢
        cases s with
        | nil => exact h
        | cons x0 rest =>
          cases x0 with
          | node t cs => exact h
          | leaf c r =>
            by_cases hc : c = cls.1
            · simp only [hc, if_true] at h ⊢
              cases hF : findClose cls.1 cls.2 rest 0 with
              | none => simp only [hF] at h ⊢; exact h
              | some q =>
                simp only [hF] at h ⊢
                cases hS : matchG f d (.seq items) q.1 with
                | none => simp [hS] at h
                | some y =>
                  have hSb := ih d _ _ y hS
                  simp only [hS] at h
                  simp only [hSb]
                  exact h
            · simp only [hc, if_false] at h ⊢
              exact h
    | startsWith g1 =>
      rw [matchG_startsWith_eq] at h ⊢
      cases hS : matchG f d g1 s with
      | none => simp [hS] at h
      | some y =>
        have hSb := ih d _ _ y hS
        simp only [hS] at h
        simp only [hSb]
        exact h
    | greedyUntil t =>
      cases s with
      | nil => rw [matchG_greedy_nil_eq] at h ⊢; exact h
      | cons x0 xs =>
        rw [matchG_greedy_cons_eq] at h ⊢
        cases hS : matchG f d t (x0 :: xs) with
        | none => simp [hS] at h
        | some y =>
          have hSb := ih d _ _ y hS
          simp only [hS] at h
          simp only [hSb]
          cases y with
          | some r0 => exact h
          | none =>
            simp only at h ⊢
            cases hS2 : matchG f d (.greedyUntil t) xs with
            | none => simp [hS2] at h
            | some y2 =>
              have hS2b := ih d _ _ y2 hS2
              simp only [hS2] at h
              simp only [hS2b]
              exact h


/-- Fuel monotonicity: a genuine matcher result is stable under any fuel
increase. -/
theorem matchG_mono {f f' : Nat} (hle : f ≤ f') {d : Dialect} {g : Grammar}
    {s : List Segment} {x : Option MatchResult}
    (h : matchG f d g s = some x) : matchG f' d g s = some x := by
  induction f' with
  | zero =>
    have : f = 0 := Nat.le_zero.mp hle
    subst this
    exact h
  | succ f' ih =>
    rcases Nat.lt_or_ge f (f' + 1) with hlt | hge
    · exact monoOK_all f' d g s x (ih (Nat.lt_succ_iff.mp hlt))
    · have : f = f' + 1 := Nat.le_antisymm hle hge
      subst this
      exact h

/-- Uniqueness of genuine matcher results across fuels: the engine's
semantics is a partial function of (dialect, grammar, stream). -/
theorem matchG_uniq {f f' : Nat} {d : Dialect} {g : Grammar}
    {s : List Segment} {x x' : Option MatchResult}
    (h : matchG f d g s = some x) (h' : matchG f' d g s = some x') : x = x' := by
  rcases Nat.le_total f f' with hle | hle
  · have h2 := matchG_mono hle h
    rw [h2] at h'
    exact Option.some_inj.mp h'
  · have h2 := matchG_mono hle h'
    rw [h2] at h
    exact (Option.some_inj.mp h).symm

/-! Lemmas for the file-level driver. -/

theorem tryStatements_raw (f : Nat) (d : Dialect) :
    ∀ (opts : List Grammar) (region out : List Segment),
      tryStatements f d opts region = some out → rawL out = rawL region := by
  intro opts
  induction opts with
  | nil =>
    intro region out h
    simp only [tryStatements] at h
    split at h
    · simp only [Option.some.injEq] at h
      subst h
      rfl
    · simp only [Option.some.injEq] at h
      subst h
      simp [rawL, Segment.raw]
  | cons g gs ih =>
    intro region out h
    simp only [tryStatements] at h
    split at h
    · simp at h
    · exact ih region out h
    · rename_i r hr
      split at h
      · simp only [Option.some.injEq] at h
        subst h
        rw [rawL_append]
        exact (matchSound_all f d g region r hr).1
      · exact ih region out h

theorem parseRegion_raw (f : Nat) (d : Dialect) (region out : List Segment)
    (h : parseRegion f d region = some out) : rawL out = rawL region := by
  simp only [parseRegion] at h
  split at h
  · split at h
    · exact tryStatements_raw f d _ region out h
    · simp only [Option.some.injEq] at h
      subst h
      simp [rawL, Segment.raw]
  · simp only [Option.some.injEq] at h
    subst h
    simp [rawL, Segment.raw]

theorem parseFile_raw :
    ∀ (f : Nat) (d : Dialect) (s out : List Segment),
      parseFile f d s = some out → rawL out = rawL s := by
  intro f
  induction f with
  | zero => intro d s out h; simp [parseFile] at h
  | succ f ih =>
    intro d s out h
    simp only [parseFile] at h
    split at h
    · simp only [Option.some.injEq] at h
      subst h
      rfl
    · split at h
      · simp at h
      · rename_i rd hrd
        split at h
        · simp at h
        · simp at h
        · rename_i r hr
          split at h
          · simp at h
          · rename_i stmts hst
            have hr1 := (matchSound_all f d rd.matchGrammar s r hr).1
            have hst1 := parseRegion_raw f d r.matched stmts hst
            split at h
            · rename_i hrest
              simp only [Option.some.injEq] at h
              subst h
              rw [hst1, ← hr1, hrest]
              simp [rawL]
            · rename_i t rest' hrest
              split at h
              · simp at h
              · rename_i out' hout
                simp only [Option.some.injEq] at h
                subst h
                have hrec := ih d rest' out' hout
                rw [rawL_append, hst1]
                simp only [rawL]
                rw [hrec, ← hr1, hrest]
                simp [rawL]

theorem tryStatements_mono {f f' : Nat} (hle : f ≤ f') (d : Dialect) :
    ∀ (opts : List Grammar) (region out : List Segment),
      tryStatements f d opts region = some out →
      tryStatements f' d opts region = some out := by
  intro opts
  induction opts with
  | nil => intro region out h; exact h
  | cons g gs ih =>
    intro region out h
    simp only [tryStatements] at h ⊢
    cases hS : matchG f d g region with
    | none => rw [hS] at h; simp at h
    | some y =>
      have hSb := matchG_mono hle hS
      rw [hS] at h
      rw [hSb]
      cases y with
      | none => exact ih region out h
      | some r =>
        simp only at h ⊢
        split at h
        · rename_i htriv
          simp only [htriv, if_true]
          exact h
        · rename_i htriv
          simp only [htriv, if_false]
          exact ih region out h

theorem parseRegion_mono {f f' : Nat} (hle : f ≤ f') (d : Dialect)
    (region out : List Segment) (h : parseRegion f d region = some out) :
    parseRegion f' d region = some out := by
  simp only [parseRegion] at h ⊢
  cases hL : d.lookup "StatementSegment" with
  | none => simp only [hL] at h ⊢; exact h
  | some rd =>
    simp only [hL] at h ⊢
    cases hpg : rd.parseGrammar with
    | none => simp only [hpg] at h ⊢; exact h
    | some pg =>
      simp only [hpg] at h ⊢
      cases pg
      all_goals try exact h
      exact tryStatements_mono hle d _ region out h

theorem parseFile_mono :
    ∀ {f f' : Nat}, f ≤ f' → ∀ (d : Dialect) (s out : List Segment),
      parseFile f d s = some out → parseFile f' d s = some out := by
  intro f
  induction f with
  | zero => intro f' hle d s out h; simp [parseFile] at h
  | succ f ih =>
    intro f' hle d s out h
    match f', hle with
    | f' + 1, hle =>
      have hle' : f ≤ f' := Nat.succ_le_succ_iff.mp hle
      cases s with
      | nil => simp only [parseFile] at h ⊢; exact h
      | cons x0 xs =>
        simp only [parseFile] at h ⊢
        cases hL : d.lookup "StatementSegment" with
        | none => simp only [hL] at h; simp at h
        | some rd =>
          simp only [hL] at h ⊢
          cases hS : matchG f d rd.matchGrammar (x0 :: xs) with
          | none => simp only [hS] at h; simp at h
          | some y =>
            have hSb := matchG_mono hle' hS
            simp only [hS] at h
            simp only [hSb]
            cases y with
            | none => simp at h
            | some r =>
              simp only at h ⊢
              cases hst : parseRegion f d r.matched with
              | none => simp only [hst] at h; simp at h
              | some stmts =>
                have hstb := parseRegion_mono hle' d _ _ hst
                simp only [hst] at h
                simp only [hstb]
                cases hrest : r.rest with
                | nil => simp only [hrest] at h ⊢; exact h
                | cons t rest' =>
                  simp only [hrest] at h ⊢
                  cases hout : parseFile f d rest' with
                  | none => simp only [hout] at h; simp at h
                  | some out' =>
                    have houtb := ih hle' d rest' out' hout
                    simp only [hout] at h
                    simp only [houtb]
                    exact h

/-! Fuel-free semantics: a genuine engine outcome at some fuel.  By
matchG_mono and matchG_uniq these predicates describe the engine's
partial-function semantics independently of fuel. -/

/-- Genuine match of a grammar on a stream with the given result. -/
def MatchesG (d : Dialect) (g : Grammar) (s : List Segment) (r : MatchResult) : Prop :=
  ∃ f, matchG f d g s = some (some r)

/-- Genuine no-match of a grammar on a stream. -/
def FailsG (d : Dialect) (g : Grammar) (s : List Segment) : Prop :=
  ∃ f, matchG f d g s = some none

/-- Genuine engine outcome (either failure or a match result). -/
def OutcomeG (d : Dialect) (g : Grammar) (s : List Segment)
    (x : Option MatchResult) : Prop :=
  ∃ f, matchG f d g s = some x

/-- Genuine file-level parse producing the given tree list. -/
def ParsesTo (d : Dialect) (s out : List Segment) : Prop :=
  ∃ f, parseFile f d s = some out

/-- Genuine statement-region outcome. -/
def RegionTo (d : Dialect) (region out : List Segment) : Prop :=
  ∃ f, parseRegion f d region = some out

mutual

/-- Count of interior nodes satisfying a tag predicate, over a segment. -/
def countNodesP (p : String → Bool) : Segment → Nat
  | .leaf _ _ => 0
  | .node t cs => (if p t then 1 else 0) + countNodesLP p cs

/-- Count of interior nodes satisfying a tag predicate, over a list. -/
def countNodesLP (p : String → Bool) : List Segment → Nat
  | [] => 0
  | x :: xs => countNodesP p x + countNodesLP p xs

end

/-- Count of unparsable nodes in a tree list. -/
def countUnparsable (l : List Segment) : Nat :=
  countNodesLP (fun t => t == "unparsable") l

/-- Tags of bracket-group nodes producible by the registered bracket kinds. -/
def bracketNodeTags : List String :=
  [brTag "round", brTag "square", brTag "angle"]

/-- Count of bracket-group nodes (of any registered kind) in a tree list. -/
def countBracketNodes (l : List Segment) : Nat :=
  countNodesLP (fun t => bracketNodeTags.contains t) l

/-- Count of angle-kind bracket nodes in a tree list. -/
def countAngleNodes (l : List Segment) : Nat :=
  countNodesLP (fun t => t == brTag "angle") l

/-- Test whether the second character list starts with the first. -/
def listStarts : List Char → List Char → Bool
  | [], _ => true
  | _ :: _, [] => false
  | a :: as, b :: bs => a == b && listStarts as bs

/-- Test whether the first character list occurs contiguously inside the
second. -/
def listHas (needle : List Char) : List Char → Bool
  | [] => needle.isEmpty
  | c :: cs => listStarts needle (c :: cs) || listHas needle cs

mutual

/-- Test whether some interior node of the tree has raw text containing the
given character sequence. -/
def anyNodeMentions (needle : List Char) : Segment → Bool
  | .leaf _ _ => false
  | .node _ cs => listHas needle (rawL cs) || anyNodeMentionsL needle cs

/-- List version of anyNodeMentions. -/
def anyNodeMentionsL (needle : List Char) : List Segment → Bool
  | [] => false
  | x :: xs => anyNodeMentions needle x || anyNodeMentionsL needle xs

end

/-! Concrete token streams and expected trees used by the claims. -/

/-- Word token (keyword candidate or identifier). -/
def wTok (s : String) : Segment := .leaf .word s

/-- Single whitespace token. -/
def wsTok : Segment := .leaf .ws " "

/-- Statement separator token. -/
def semiTok : Segment := .leaf .semi ";"

/-- Token stream of USE db. -/
def toksUse : List Segment := [wTok "USE", wsTok, wTok "db"]

/-- Expected tree for USE db. -/
def useTree : Segment :=
  .node "use_statement" [wTok "USE", wsTok, .node "database_reference" [wTok "db"]]

/-- C1: losslessness.  For every input stream and every dialect, whenever
the engine produces a tree, concatenating the raw text of all leaves in
document order reproduces the input's raw text exactly — with or without
unparsable regions.  (The engine is modelled from the spec; the statement
quantifies over all dialects, hence over every published one.) -/
theorem C1_losslessness (d : Dialect) (s out : List Segment)
    (h : ParsesTo d s out) : rawL out = rawL s := by
  obtain ⟨f, hf⟩ := h
  exact parseFile_raw f d s out hf

/-- Witness for C1 at the concrete stream USE db under the hive dialect. -/
theorem C1_losslessness_witness : rawL [useTree] = rawL toksUse :=
  C1_losslessness hive_dialect toksUse [useTree] ⟨30, rfl⟩

/-- Constructor index of a grammar expression (discriminator used to
separate distinct rule definitions). -/
def Grammar.ctorIdx : Grammar → Nat
  | .kw _ => 0
  | .tok _ => 1
  | .nakedIdent => 2
  | .ref _ => 3
  | .seq _ => 4
  | .oneOf _ => 5
  | .delimited _ => 6
  | .delimitedRest _ => 7
  | .bracketed _ _ => 8
  | .startsWith _ => 9
  | .greedyUntil _ => 10

/-- Top-level width of a grammar expression (number of direct sequence
items or alternation options). -/
def Grammar.topLen : Grammar → Nat
  | .seq l => l.length
  | .oneOf l => l.length
  | _ => 0

/-- Constructor index of the i-th direct item of a sequence grammar. -/
def Grammar.itemCtor (g : Grammar) (i : Nat) : Nat :=
  match g with
  | .seq l =>
    match l.get? i with
    | some gi => gi.1.ctorIdx
    | none => 97
  | _ => 98

/-! Concrete streams and trees for C3, C4 and C9. -/

/-- Token stream of CREATE TABLE t (a INT) STORED AS PARQUET LOCATION
single-quoted /x. -/
def toksC3 : List Segment :=
  [wTok "CREATE", wsTok, wTok "TABLE", wsTok, wTok "t", wsTok,
   .leaf .lparen "(", wTok "a", wsTok, wTok "INT", .leaf .rparen ")", wsTok,
   wTok "STORED", wsTok, wTok "AS", wsTok, wTok "PARQUET", wsTok,
   wTok "LOCATION", wsTok, .leaf .squote "'/x'"]

/-- Children of the create_table_statement node the engine produces for
toksC3. -/
def c3children : List Segment :=
  [wTok "CREATE", wsTok, wTok "TABLE", wsTok,
   .node "table_reference" [wTok "t"], wsTok,
   .node (brTag "round") [.leaf .lparen "(",
     .node "column_definition" [wTok "a", wsTok,
       .node "data_type" [.node "primitive_type" [wTok "INT"]]],
     .leaf .rparen ")"],
   wsTok, wTok "STORED", wsTok, wTok "AS", wsTok, wTok "PARQUET", wsTok,
   wTok "LOCATION", wsTok, .leaf .squote "'/x'"]

/-- Token stream of a less-than b AND c greater-than d. -/
def toksCmp : List Segment :=
  [wTok "a", wsTok, .leaf .lt "<", wsTok, wTok "b", wsTok, wTok "AND", wsTok,
   wTok "c", wsTok, .leaf .gt ">", wsTok, wTok "d"]

/-- Token stream of ARRAY angle-open INT angle-close. -/
def toksArr : List Segment :=
  [wTok "ARRAY", .leaf .lt "<", wTok "INT", .leaf .gt ">"]

/-- Tree the engine produces for toksArr under the hive datatype rule. -/
def arrTree : Segment :=
  .node "data_type" [wTok "ARRAY",
    .node (brTag "angle") [.leaf .lt "<",
      .node "data_type" [.node "primitive_type" [wTok "INT"]],
      .leaf .gt ">"]]

/-- Token stream of DROP DATABASE x. -/
def toksDropDb : List Segment :=
  [wTok "DROP", wsTok, wTok "DATABASE", wsTok, wTok "x"]

/-- Tree produced for DROP DATABASE x. -/
def dropDbTree : Segment :=
  .node "drop_statement" [.node "drop_table_statement"
    [wTok "DROP", wsTok, wTok "DATABASE", wsTok,
     .node "database_reference" [wTok "x"]]]

/-- Token stream of DROP TABLE t. -/
def toksDropTb : List Segment :=
  [wTok "DROP", wsTok, wTok "TABLE", wsTok, wTok "t"]

/-- Tree produced for DROP TABLE t. -/
def dropTbTree : Segment :=
  .node "drop_statement" [.node "drop_table_statement"
    [wTok "DROP", wsTok, wTok "TABLE", wsTok,
     .node "table_reference" [wTok "t"]]]

/-- C4: bracket disambiguation.  The comparison text parses (as a
statement) with zero bracket-group nodes and its less-than/greater-than
tokens preserved verbatim as ordinary operator leaves, while ARRAY with
angle-bracketed INT, matched at the datatype grammar position that
explicitly requests the angle kind, produces exactly one angle-kind
bracket node wrapping an INT datatype node; the angle kind itself is only
resolvable through the dialect's bracket-pair registry. -/
theorem C4_bracket_disambiguation :
    parseFile 100 hive_dialect toksCmp = some [Segment.node "unparsable" toksCmp]
    ∧ countBracketNodes [Segment.node "unparsable" toksCmp] = 0
    ∧ matchG 100 hive_dialect (R "DatatypeSegment") toksArr =
        some (some ⟨[arrTree], []⟩)
    ∧ countAngleNodes [arrTree] = 1
    ∧ bracketClasses hive_dialect "angle" = some (.lt, .gt)
    ∧ bracketClasses ansi_dialect "angle" = none :=
  ⟨rfl, rfl, rfl, rfl, rfl, rfl⟩

/-- C9: both DROP DATABASE and DROP TABLE yield a node whose type tag is
drop_table_statement — the two registered drop rules are distinct
definitions but carry the same type tag, so the two drop kinds are
indistinguishable by tag in the output tree. -/
theorem C9_drop_tags :
    parseFile 100 hive_dialect toksDropDb = some [dropDbTree]
    ∧ parseFile 100 hive_dialect toksDropTb = some [dropTbTree]
    ∧ (Dialect.lookup hive_dialect "DropDatabaseStatementSegment").map
        RuleDef.typeTag = some (some "drop_table_statement")
    ∧ (Dialect.lookup hive_dialect "DropTableStatementSegment").map
        RuleDef.typeTag = some (some "drop_table_statement")
    ∧ DropDatabaseStatementSegment ≠ DropTableStatementSegment := by
  refine ⟨rfl, rfl, rfl, rfl, ?_⟩
  intro hEq
  have h2 : (5 : Nat) = 0 :=
    congrArg (fun rd => rd.matchGrammar.itemCtor 1) hEq
  exact absurd h2 (by decide)

/-- C3 counterexample: the concrete CREATE TABLE input parses to a single
create_table_statement node with no unparsable leaf, but no interior node
below the statement node has raw text containing PARQUET, and none has raw
text containing /x: the storage-format clause and the location clause are
grammar bindings, not segment classes, so they contribute no wrapping
sub-node, contradicting the claimed storage-format and location
sub-nodes. -/
theorem C3_counterexample :
    parseFile 100 hive_dialect toksC3 =
      some [Segment.node "create_table_statement" c3children]
    ∧ anyNodeMentionsL "PARQUET".data c3children = false
    ∧ anyNodeMentionsL "/x".data c3children = false :=
  ⟨rfl, rfl, rfl⟩

/-- C3 amended: the concrete input parses to a single
create_table_statement node containing the table-reference node for t,
exactly one column-definition node (holding a and an INT datatype node),
the storage-format clause tokens STORED AS PARQUET and the location clause
tokens (LOCATION and the quoted path literal) inline among the statement's
children (no dedicated storage-format or location sub-node), and no
unparsable leaves. -/
theorem C3_create_table_amended :
    parseFile 100 hive_dialect toksC3 =
      some [Segment.node "create_table_statement" c3children]
    ∧ countUnparsable [Segment.node "create_table_statement" c3children] = 0
    ∧ countNodesLP (fun t => t == "create_table_statement")
        [Segment.node "create_table_statement" c3children] = 1
    ∧ countNodesLP (fun t => t == "column_definition") c3children = 1
    ∧ countNodesLP (fun t => t == "table_reference") c3children = 1
    ∧ anyNodeMentionsL "a INT".data c3children = true
    ∧ rawL c3children = rawL toksC3 :=
  ⟨rfl, rfl, rfl, rfl, rfl, rfl, rfl⟩

/-- C6: total replacement on override.  For each of the five rule names the
hive dialect rebinds with replace=True, resolving the name through the
child yields exactly the child's new definition, which differs from the
parent's original binding; and a late-bound reference inside
ColumnDefinitionSegment — a rule the child inherits unchanged from the
parent — resolves DatatypeSegment to the child's definition (the hive
ARRAY angle form parses through the child and fails through the
parent). -/
theorem C6_override_replacement :
    (Dialect.lookup hive_dialect "DatatypeSegment" = some DatatypeSegment
      ∧ Dialect.lookup ansi_dialect "DatatypeSegment" = some ansiDatatypeSegment
      ∧ DatatypeSegment ≠ ansiDatatypeSegment)
    ∧ (Dialect.lookup hive_dialect "CreateTableStatementSegment" =
          some CreateTableStatementSegment
      ∧ Dialect.lookup ansi_dialect "CreateTableStatementSegment" =
          some ansiCreateTableStatementSegment
      ∧ CreateTableStatementSegment ≠ ansiCreateTableStatementSegment)
    ∧ (Dialect.lookup hive_dialect "DropStatementSegment" = some DropStatementSegment
      ∧ Dialect.lookup ansi_dialect "DropStatementSegment" = some ansiDropStatementSegment
      ∧ DropStatementSegment ≠ ansiDropStatementSegment)
    ∧ (Dialect.lookup hive_dialect "InsertStatementSegment" = some InsertStatementSegment
      ∧ Dialect.lookup ansi_dialect "InsertStatementSegment" = some ansiInsertStatementSegment
      ∧ InsertStatementSegment ≠ ansiInsertStatementSegment)
    ∧ (Dialect.lookup hive_dialect "StatementSegment" = some StatementSegment
      ∧ Dialect.lookup ansi_dialect "StatementSegment" = some ansiStatementSegment
      ∧ StatementSegment ≠ ansiStatementSegment)
    ∧ matchG 100 hive_dialect (R "ColumnDefinitionSegment")
        (wTok "a" :: wsTok :: toksArr) =
        some (some ⟨[Segment.node "column_definition"
          [wTok "a", wsTok, arrTree]], []⟩)
    ∧ matchG 100 ansi_dialect (R "ColumnDefinitionSegment")
        (wTok "a" :: wsTok :: toksArr) = some none := by
  refine ⟨⟨rfl, rfl, ?_⟩, ⟨rfl, rfl, ?_⟩, ⟨rfl, rfl, ?_⟩, ⟨rfl, rfl, ?_⟩,
    ⟨rfl, rfl, ?_⟩, rfl, rfl⟩
  · intro hEq
    have h2 : (5 : Nat) = 7 := congrArg (fun rd => rd.matchGrammar.topLen) hEq
    exact absurd h2 (by decide)
  · intro hEq
    have h2 : (7 : Nat) = 5 :=
      congrArg (fun rd => (rd.parseGrammar.getD (.seq [])).topLen) hEq
    exact absurd h2 (by decide)
  · intro hEq
    have h2 : (2 : Nat) = 0 :=
      congrArg (fun rd => (rd.parseGrammar.getD (.seq [])).topLen) hEq
    exact absurd h2 (by decide)
  · intro hEq
    have h2 : (5 : Nat) = 4 := congrArg (fun rd => rd.matchGrammar.ctorIdx) hEq
    exact absurd h2 (by decide)
  · intro hEq
    have h2 : (8 : Nat) = 5 :=
      congrArg (fun rd => (rd.parseGrammar.getD (.seq [])).topLen) hEq
    exact absurd h2 (by decide)

/-- C7: inheritance isolation.  After the hive dialect is built from the
ANSI parent by copy_as followed by keyword updates, the angle bracket-pair
addition, rule additions and rule replacements, the parent still carries
its original rule bindings (including every rule the child replaced), its
original keyword sets (without the hive additions) and its original
bracket pairs (without the angle pair), and none of the hive-only rules
exist in the parent. -/
theorem C7_inheritance_isolation :
    hive_dialect.name = "hive"
    ∧ ansi_dialect.name = "ansi"
    ∧ Dialect.lookup ansi_dialect "DatatypeSegment" = some ansiDatatypeSegment
    ∧ Dialect.lookup ansi_dialect "CreateTableStatementSegment" =
        some ansiCreateTableStatementSegment
    ∧ Dialect.lookup ansi_dialect "DropStatementSegment" = some ansiDropStatementSegment
    ∧ Dialect.lookup ansi_dialect "InsertStatementSegment" = some ansiInsertStatementSegment
    ∧ Dialect.lookup ansi_dialect "StatementSegment" = some ansiStatementSegment
    ∧ Dialect.lookup ansi_dialect "LoadDataStatementSegment" = none
    ∧ Dialect.lookup ansi_dialect "LocationGrammar" = none
    ∧ Dialect.lookup ansi_dialect "PrimitiveTypeSegment" = none
    ∧ ansi_dialect.reserved_keywords.contains "CONF" = false
    ∧ hive_dialect.reserved_keywords.contains "CONF" = true
    ∧ ansi_dialect.unreserved_keywords.contains "PARQUET" = false
    ∧ hive_dialect.unreserved_keywords.contains "PARQUET" = true
    ∧ ansi_dialect.bracket_pairs.find? (fun q => q.1 == "angle") = none
    ∧ hive_dialect.bracket_pairs.find? (fun q => q.1 == "angle") =
        some ("angle", "LessThanSegment", "GreaterThanSegment", false)
    ∧ ansi_dialect.bracket_pairs =
        [("round", "StartBracketSegment", "EndBracketSegment", true),
         ("square", "StartSquareBracketSegment", "EndSquareBracketSegment", true)] :=
  ⟨rfl, rfl, rfl, rfl, rfl, rfl, rfl, rfl, rfl, rfl, rfl, rfl, rfl, rfl,
   rfl, rfl, rfl⟩

/-- C5: ordered choice.  For every alternation, dialect, stream and
result: if every option before g genuinely fails and g genuinely matches
with result r, the whole alternation genuinely matches with exactly r —
whatever the later options are, in particular when a later option would
consume more tokens.  Instantiated by the hive CREATE TABLE rule, whose
parenthesized-column-list form is declared before the LIKE form. -/
theorem C5_ordered_choice (d : Dialect) (pre post : List Grammar) (g : Grammar)
    (s : List Segment) (r : MatchResult)
    (hpre : ∀ g' ∈ pre, FailsG d g' s) (hg : MatchesG d g s r) :
    MatchesG d (.oneOf (pre ++ g :: post)) s r := by
  induction pre with
  | nil =>
    obtain ⟨f, hf⟩ := hg
    refine ⟨f + 1, ?_⟩
    rw [List.nil_append, matchG_oneOf_cons_eq, hf]
  | cons p pre' ih =>
    have hp : FailsG d p s := hpre p (by simp)
    have hrest : MatchesG d (.oneOf (pre' ++ g :: post)) s r :=
      ih (fun g' hg' => hpre g' (by simp [hg']))
    obtain ⟨fp, hfp⟩ := hp
    obtain ⟨fi, hfi⟩ := hrest
    refine ⟨max fp fi + 1, ?_⟩
    rw [List.cons_append, matchG_oneOf_cons_eq,
      matchG_mono (Nat.le_max_left fp fi) hfp]
    exact matchG_mono (Nat.le_max_right fp fi) hfi

/-- Witness for C5: under the hive dialect, with a failing first option,
the second option K A wins on the stream A B with a one-token match, even
though the later sequence option would consume both tokens. -/
theorem C5_ordered_choice_witness :
    MatchesG hive_dialect
      (.oneOf [K "X", K "A", .seq [req (K "A"), req (K "B")]])
      [wTok "A", wsTok, wTok "B"] ⟨[wTok "A"], [wsTok, wTok "B"]⟩ :=
  C5_ordered_choice hive_dialect [K "X"] [.seq [req (K "A"), req (K "B")]]
    (K "A") [wTok "A", wsTok, wTok "B"] ⟨[wTok "A"], [wsTok, wTok "B"]⟩
    (by
      intro g' hg'
      rw [List.mem_singleton] at hg'
      subst hg'
      exact ⟨5, rfl⟩)
    ⟨5, rfl⟩

/-- Uniqueness of genuine match results (helper shared by several
claims). -/
theorem matchesG_uniq {d : Dialect} {g : Grammar} {s : List Segment}
    {r1 r2 : MatchResult} (h1 : MatchesG d g s r1) (h2 : MatchesG d g s r2) :
    r1 = r2 := by
  obtain ⟨f1, hf1⟩ := h1
  obtain ⟨f2, hf2⟩ := h2
  have := matchG_uniq hf1 hf2
  exact Option.some_inj.mp this

/-- A genuine match and a genuine failure of the same grammar on the same
stream are contradictory. -/
theorem matchesG_not_failsG {d : Dialect} {g : Grammar} {s : List Segment}
    {r : MatchResult} (h1 : MatchesG d g s r) (h2 : FailsG d g s) : False := by
  obtain ⟨f1, hf1⟩ := h1
  obtain ⟨f2, hf2⟩ := h2
  exact Option.noConfusion (matchG_uniq hf1 hf2)

/-- Uniqueness of genuine file-level parses (helper shared by several
claims). -/
theorem parsesTo_uniq {d : Dialect} {s t1 t2 : List Segment}
    (h1 : ParsesTo d s t1) (h2 : ParsesTo d s t2) : t1 = t2 := by
  obtain ⟨f1, hf1⟩ := h1
  obtain ⟨f2, hf2⟩ := h2
  rcases Nat.le_total f1 f2 with hle | hle
  · have := parseFile_mono hle d s t1 hf1
    rw [this] at hf2
    exact Option.some_inj.mp hf2
  · have := parseFile_mono hle d s t2 hf2
    rw [this] at hf1
    exact (Option.some_inj.mp hf1).symm

/-- Uniqueness of genuine statement-region outcomes. -/
theorem regionTo_uniq {d : Dialect} {region o1 o2 : List Segment}
    (h1 : RegionTo d region o1) (h2 : RegionTo d region o2) : o1 = o2 := by
  obtain ⟨f1, hf1⟩ := h1
  obtain ⟨f2, hf2⟩ := h2
  rcases Nat.le_total f1 f2 with hle | hle
  · have := parseRegion_mono hle d region o1 hf1
    rw [this] at hf2
    exact Option.some_inj.mp hf2
  · have := parseRegion_mono hle d region o2 hf2
    rw [this] at hf1
    exact (Option.some_inj.mp hf1).symm

/-- C8: determinism.  A genuine matcher result and a genuine file-level
tree are uniquely determined by (dialect, grammar, stream) — independent
of fuel, hence identical across runs, with no nondeterministic choice
among alternation options. -/
theorem C8_determinism :
    (∀ (d : Dialect) (g : Grammar) (s : List Segment) (r1 r2 : MatchResult),
      MatchesG d g s r1 → MatchesG d g s r2 → r1 = r2)
    ∧ (∀ (d : Dialect) (s t1 t2 : List Segment),
      ParsesTo d s t1 → ParsesTo d s t2 → t1 = t2) :=
  ⟨fun _ _ _ _ _ h1 h2 => matchesG_uniq h1 h2,
   fun _ _ _ _ h1 h2 => parsesTo_uniq h1 h2⟩

/-- Witness for C8: two runs at different fuels on USE db produce the same
tree. -/
theorem C8_determinism_witness : [useTree] = [useTree] :=
  C8_determinism.2 hive_dialect toksUse [useTree] [useTree] ⟨30, rfl⟩ ⟨31, rfl⟩

/-! Infrastructure for C2: statement segmentation at the separator. -/

/-- Test for a statement-separator leaf. -/
def isSemiLeaf : Segment → Bool
  | .leaf .semi _ => true
  | _ => false

/-- Unfolding equation for the file driver on an empty stream. -/
theorem parseFile_nil_eq (f : Nat) (d : Dialect) :
    parseFile (f + 1) d [] = some [] := rfl

/-- Unfolding equation for the file driver on a nonempty stream. -/
theorem parseFile_cons_eq (f : Nat) (d : Dialect) (x : Segment)
    (xs : List Segment) :
    parseFile (f + 1) d (x :: xs) =
      (match d.lookup "StatementSegment" with
       | none => none
       | some rd =>
         match matchG f d rd.matchGrammar (x :: xs) with
         | none => none
         | some none => none
         | some (some r) =>
           match parseRegion f d r.matched with
           | none => none
           | some stmts =>
             match r.rest with
             | [] => some stmts
             | t :: rest' =>
               match parseFile f d rest' with
               | none => none
               | some out => some (stmts ++ t :: out)) := rfl

/-- The semicolon terminal reference matches exactly a leading separator
leaf (fuel at least two suffices). -/
theorem semiRef_semi {f : Nat} (hf : 2 ≤ f) (c : String) (rest : List Segment) :
    matchG f hive_dialect (R "SemicolonSegment") (Segment.leaf .semi c :: rest) =
      some (some ⟨[Segment.leaf .semi c], rest⟩) := by
  have base : matchG 2 hive_dialect (R "SemicolonSegment")
      (Segment.leaf .semi c :: rest) =
      some (some ⟨[Segment.leaf .semi c], rest⟩) := rfl
  exact matchG_mono hf base

/-- The semicolon terminal reference genuinely fails on any stream whose
head is not a separator leaf. -/
theorem semiRef_fail {f : Nat} (hf : 2 ≤ f) (x : Segment) (rest : List Segment)
    (hx : isSemiLeaf x = false) :
    matchG f hive_dialect (R "SemicolonSegment") (x :: rest) = some none := by
  have base : matchG 2 hive_dialect (R "SemicolonSegment") (x :: rest) =
      some none := by
    cases x with
    | node t cs => rfl
    | leaf c r =>
      cases c <;> first
        | rfl
        | (exfalso; simp [isSemiLeaf] at hx)
  exact matchG_mono hf base

/-- The statement-extent recognizer (GreedyUntil the separator) splits a
stream exactly at the first separator leaf. -/
theorem greedy_split :
    ∀ (s1 : List Segment), (∀ x ∈ s1, isSemiLeaf x = false) →
    ∀ (c : String) (s2 : List Segment) (F : Nat), s1.length + 3 ≤ F →
      matchG F hive_dialect (.greedyUntil (R "SemicolonSegment"))
        (s1 ++ Segment.leaf .semi c :: s2) =
      some (some ⟨s1, Segment.leaf .semi c :: s2⟩) := by
  intro s1
  induction s1 with
  | nil =>
    intro _ c s2 F hF
    obtain ⟨F', rfl⟩ : ∃ F', F = F' + 1 := ⟨F - 1, by omega⟩
    rw [List.nil_append, matchG_greedy_cons_eq, semiRef_semi (by omega) c s2]
  | cons x xs ih =>
    intro hs c s2 F hF
    obtain ⟨F', rfl⟩ : ∃ F', F = F' + 1 := ⟨F - 1, by omega⟩
    rw [List.cons_append, matchG_greedy_cons_eq]
    rw [show x :: (xs ++ Segment.leaf .semi c :: s2) =
      x :: (xs ++ Segment.leaf .semi c :: s2) from rfl]
    rw [semiRef_fail (show 2 ≤ F' by simp at hF; omega) x _ (hs x (by simp))]
    rw [ih (fun y hy => hs y (by simp [hy])) c s2 F' (by simp at hF; omega)]

/-- The statement-extent recognizer consumes a whole separator-free stream. -/
theorem greedy_all :
    ∀ (s : List Segment), (∀ x ∈ s, isSemiLeaf x = false) →
    ∀ (F : Nat), s.length + 3 ≤ F →
      matchG F hive_dialect (.greedyUntil (R "SemicolonSegment")) s =
      some (some ⟨s, []⟩) := by
  intro s
  induction s with
  | nil =>
    intro _ F hF
    obtain ⟨F', rfl⟩ : ∃ F', F = F' + 1 := ⟨F - 1, by omega⟩
    rw [matchG_greedy_nil_eq]
  | cons x xs ih =>
    intro hs F hF
    obtain ⟨F', rfl⟩ : ∃ F', F = F' + 1 := ⟨F - 1, by omega⟩
    rw [matchG_greedy_cons_eq]
    rw [semiRef_fail (show 2 ≤ F' by simp at hF; omega) x _ (hs x (by simp))]
    rw [ih (fun y hy => hs y (by simp [hy])) F' (by simp at hF; omega)]

/-- C2: recovery containment.  For any two separator-free statement
streams where the first region genuinely parses to a single unparsable
node (no registered statement kind accepts it) and the second genuinely
parses to out2, the file made of the two statements joined by the
separator parses — it is produced, not aborted — to exactly the
unparsable node for the first region (holding its tokens verbatim),
the separator, and out2; parsing the second statement alone gives the
same out2; and the whole tree contains exactly one unparsable node. -/
theorem C2_recovery_containment (s1 s2 out2 : List Segment)
    (h1 : ∀ x ∈ s1, isSemiLeaf x = false)
    (h2 : ∀ x ∈ s2, isSemiLeaf x = false)
    (hfail : RegionTo hive_dialect s1 [Segment.node "unparsable" s1])
    (hok : RegionTo hive_dialect s2 out2)
    (hu1 : countUnparsable s1 = 0)
    (hu2 : countUnparsable out2 = 0) :
    ParsesTo hive_dialect (s1 ++ semiTok :: s2)
      (Segment.node "unparsable" s1 :: semiTok :: out2)
    ∧ ParsesTo hive_dialect s2 out2
    ∧ countUnparsable (Segment.node "unparsable" s1 :: semiTok :: out2) = 1 := by
  obtain ⟨f1, hf1⟩ := hfail
  obtain ⟨f2, hf2⟩ := hok
  have hL : Dialect.lookup hive_dialect "StatementSegment" =
      some StatementSegment := rfl
  have hmg : StatementSegment.matchGrammar =
      Grammar.greedyUntil (R "SemicolonSegment") := rfl
  have hsecond : ∀ F, s2.length + 3 ≤ F → f2 ≤ F →
      parseFile (F + 1) hive_dialect s2 = some out2 := by
    intro F hFa hFb
    cases s2 with
    | nil =>
      have hwhole : parseRegion 30 hive_dialect [] = some [] := rfl
      have ho : out2 = [] := regionTo_uniq ⟨f2, hf2⟩ ⟨30, hwhole⟩
      subst ho
      exact parseFile_nil_eq F hive_dialect
    | cons y ys =>
      rw [parseFile_cons_eq]
      simp only [hL, hmg]
      have hg := greedy_all (y :: ys) h2 F hFa
      simp only [hg]
      have hpr := parseRegion_mono hFb hive_dialect (y :: ys) out2 hf2
      simp only [hpr]
  have hsecond2 : ∀ F, s2.length + 4 ≤ F → f2 + 1 ≤ F →
      parseFile F hive_dialect s2 = some out2 := by
    intro F hFa hFb
    obtain ⟨F', rfl⟩ : ∃ F', F = F' + 1 := ⟨F - 1, by omega⟩
    exact hsecond F' (by omega) (by omega)
  refine ⟨⟨f1 + f2 + s1.length + s2.length + 41, ?_⟩,
    ⟨s2.length + f2 + 4, hsecond2 _ (by omega) (by omega)⟩, ?_⟩
  · obtain ⟨FF, hFF⟩ : ∃ FF, f1 + f2 + s1.length + s2.length + 41 = FF + 1 :=
      ⟨f1 + f2 + s1.length + s2.length + 40, rfl⟩
    rw [hFF]
    cases s1 with
    | nil =>
      exfalso
      have hwhole : parseRegion 30 hive_dialect [] = some [] := rfl
      have := regionTo_uniq ⟨f1, hf1⟩ ⟨30, hwhole⟩
      simp at this
    | cons x xs =>
      simp only [List.length_cons] at hFF
      rw [List.cons_append, parseFile_cons_eq]
      simp only [hL, hmg]
      have hg := greedy_split (x :: xs) h1 ";" s2 FF
        (by simp only [List.length_cons]; omega)
      rw [List.cons_append] at hg
      have hsemi : (semiTok : Segment) = Segment.leaf .semi ";" := rfl
      rw [hsemi]
      simp only [hg]
      have hpr := parseRegion_mono (show f1 ≤ FF by omega)
        hive_dialect (x :: xs) [Segment.node "unparsable" (x :: xs)] hf1
      simp only [hpr]
      simp only [hsecond2 FF (by omega) (by omega)]
      simp
  · have hc : countUnparsable (Segment.node "unparsable" s1 :: semiTok :: out2) =
        1 + countUnparsable s1 + countUnparsable out2 := by
      simp [countUnparsable, countNodesLP, countNodesP, semiTok]
    rw [hc, hu1, hu2]

/-- Witness for C2: the file FLIBBLE separator USE db, whose first
statement matches no registered statement kind and whose second is a
valid USE statement. -/
theorem C2_recovery_containment_witness :
    ParsesTo hive_dialect ([wTok "FLIBBLE"] ++ semiTok :: toksUse)
      (Segment.node "unparsable" [wTok "FLIBBLE"] :: semiTok :: [useTree])
    ∧ ParsesTo hive_dialect toksUse [useTree]
    ∧ countUnparsable
        (Segment.node "unparsable" [wTok "FLIBBLE"] :: semiTok :: [useTree]) = 1 :=
  C2_recovery_containment [wTok "FLIBBLE"] toksUse [useTree]
    (by decide) (by decide) ⟨40, rfl⟩ ⟨40, rfl⟩ rfl rfl

/-! Infrastructure for C10: the two partition-spec grammars and the
ordered choice over them. -/

/-- Resolution of a plain grammar binding behaves exactly like the bound
grammar at one fuel step less. -/
theorem ref_gram_eq {d : Dialect} {n : String} {g : Grammar}
    (h : Dialect.lookup d n = some (gram g)) (f : Nat) (s : List Segment) :
    matchG (f + 1) d (.ref n) s = matchG f d g s := by
  rw [matchG_ref_eq]
  simp only [h]
  cases hS : matchG f d g s with
  | none => simp [gram, resolveG, hS]
  | some y =>
    cases y with
    | none => simp [gram, resolveG, hS]
    | some r => simp [gram, resolveG, hS]

/-- Element grammar of the dynamic partition-spec list: an identifier with
an optional equals-value part. -/
def elemD : Grammar :=
  .seq [req (R "NakedIdentifierSegment"),
        opt (.seq [req (R "EqualsSegment"), req (R "NakedIdentifierSegment")])]

/-- Element grammar of the strict partition-spec list: identifier, equals,
identifier. -/
def elemS : Grammar :=
  .seq [req (R "NakedIdentifierSegment"), req (R "EqualsSegment"),
        req (R "NakedIdentifierSegment")]

/-- Body of InsertDynamicPartitionSpecGrammar. -/
def dynBody : Grammar := .seq [req (K "PARTITION"), req (.delimited elemD)]

/-- Body of InsertPartitionSpecGrammar. -/
def strictBody : Grammar := .seq [req (K "PARTITION"), req (.delimited elemS)]

theorem dyn_rule_eq : InsertDynamicPartitionSpecGrammar = gram dynBody := rfl

theorem strict_rule_eq : InsertPartitionSpecGrammar = gram strictBody := rfl

theorem combo_rule_eq : InsertNormalOrDynamicPartitionSpecGrammar =
    gram (.oneOf [R "InsertDynamicPartitionSpecGrammar",
                  R "InsertPartitionSpecGrammar"]) := rfl

theorem lookup_dyn : Dialect.lookup hive_dialect "InsertDynamicPartitionSpecGrammar" =
    some (gram dynBody) := rfl

theorem lookup_strict : Dialect.lookup hive_dialect "InsertPartitionSpecGrammar" =
    some (gram strictBody) := rfl

theorem lookup_combo :
    Dialect.lookup hive_dialect "InsertNormalOrDynamicPartitionSpecGrammar" =
    some (gram (.oneOf [R "InsertDynamicPartitionSpecGrammar",
                        R "InsertPartitionSpecGrammar"])) := rfl

/-- Transport of the fuel-free semantics across a plain grammar binding. -/
theorem matchesG_ref_iff {d : Dialect} {n : String} {g : Grammar}
    (h : Dialect.lookup d n = some (gram g)) (s : List Segment) (r : MatchResult) :
    MatchesG d (.ref n) s r ↔ MatchesG d g s r := by
  constructor
  · rintro ⟨f, hf⟩
    have hf2 := matchG_mono (Nat.le_succ f) hf
    rw [ref_gram_eq h f s] at hf2
    exact ⟨f, hf2⟩
  · rintro ⟨f, hf⟩
    refine ⟨f + 1, ?_⟩
    rw [ref_gram_eq h f s]
    exact hf

/-- Transport of genuine failure across a plain grammar binding. -/
theorem failsG_ref_iff {d : Dialect} {n : String} {g : Grammar}
    (h : Dialect.lookup d n = some (gram g)) (s : List Segment) :
    FailsG d (.ref n) s ↔ FailsG d g s := by
  constructor
  · rintro ⟨f, hf⟩
    have hf2 := matchG_mono (Nat.le_succ f) hf
    rw [ref_gram_eq h f s] at hf2
    exact ⟨f, hf2⟩
  · rintro ⟨f, hf⟩
    refine ⟨f + 1, ?_⟩
    rw [ref_gram_eq h f s]
    exact hf

/-- Semantics of a two-option alternation: a genuine match is the first
option's match, or the first genuinely fails and the second matches. -/
theorem matchesG_oneOf2_iff (d : Dialect) (a b : Grammar) (s : List Segment)
    (r : MatchResult) :
    MatchesG d (.oneOf [a, b]) s r ↔
      MatchesG d a s r ∨ (FailsG d a s ∧ MatchesG d b s r) := by
  constructor
  · rintro ⟨f, hf⟩
    obtain ⟨f', rfl⟩ : ∃ f', f = f' + 1 := by
      cases f with
      | zero => simp [matchG] at hf
      | succ k => exact ⟨k, rfl⟩
    rw [matchG_oneOf_cons_eq] at hf
    cases hS : matchG f' d a s with
    | none => rw [hS] at hf; simp at hf
    | some y =>
      rw [hS] at hf
      cases y with
      | some r1 =>
        simp only [Option.some.injEq] at hf
        exact Or.inl ⟨f', by rw [hS, hf]⟩
      | none =>
        refine Or.inr ⟨⟨f', hS⟩, ?_⟩
        obtain ⟨f'', rfl⟩ : ∃ f'', f' = f'' + 1 := by
          cases f' with
          | zero => simp [matchG] at hf
          | succ k => exact ⟨k, rfl⟩
        rw [matchG_oneOf_cons_eq] at hf
        cases hS2 : matchG f'' d b s with
        | none => rw [hS2] at hf; simp at hf
        | some y2 =>
          rw [hS2] at hf
          cases y2 with
          | none =>
            exfalso
            cases f'' with
            | zero => simp [matchG] at hf
            | succ k =>
              rw [matchG_oneOf_nil_eq] at hf
              simp at hf
          | some r2 =>
            simp only [Option.some.injEq] at hf
            exact ⟨f'', by rw [hS2, hf]⟩
  · rintro (⟨f, hf⟩ | ⟨⟨fa, hfa⟩, ⟨fb, hfb⟩⟩)
    · refine ⟨f + 1, ?_⟩
      rw [matchG_oneOf_cons_eq, hf]
    · refine ⟨fa + fb + 1 + 1 + 1, ?_⟩
      have h1 : matchG (fa + fb + 1 + 1) d a s = some none :=
        matchG_mono (by omega) hfa
      have h2 : matchG (fa + fb + 1) d b s = some (some r) :=
        matchG_mono (by omega) hfb
      rw [matchG_oneOf_cons_eq, h1, matchG_oneOf_cons_eq, h2]

/-- Genuine failure of a two-option alternation is genuine failure of both
options. -/
theorem failsG_oneOf2_iff (d : Dialect) (a b : Grammar) (s : List Segment) :
    FailsG d (.oneOf [a, b]) s ↔ FailsG d a s ∧ FailsG d b s := by
  constructor
  · rintro ⟨f, hf⟩
    obtain ⟨f', rfl⟩ : ∃ f', f = f' + 1 := by
      cases f with
      | zero => simp [matchG] at hf
      | succ k => exact ⟨k, rfl⟩
    rw [matchG_oneOf_cons_eq] at hf
    cases hS : matchG f' d a s with
    | none => rw [hS] at hf; simp at hf
    | some y =>
      rw [hS] at hf
      cases y with
      | some r1 => simp at hf
      | none =>
        refine ⟨⟨f', hS⟩, ?_⟩
        obtain ⟨f'', rfl⟩ : ∃ f'', f' = f'' + 1 := by
          cases f' with
          | zero => simp [matchG] at hf
          | succ k => exact ⟨k, rfl⟩
        rw [matchG_oneOf_cons_eq] at hf
        cases hS2 : matchG f'' d b s with
        | none => rw [hS2] at hf; simp at hf
        | some y2 =>
          rw [hS2] at hf
          cases y2 with
          | some r2 => simp at hf
          | none => exact ⟨f'', hS2⟩
  · rintro ⟨⟨fa, hfa⟩, ⟨fb, hfb⟩⟩
    refine ⟨fa + fb + 1 + 1 + 1, ?_⟩
    have h1 : matchG (fa + fb + 1 + 1) d a s = some none :=
      matchG_mono (by omega) hfa
    have h2 : matchG (fa + fb + 1) d b s = some none :=
      matchG_mono (by omega) hfb
    rw [matchG_oneOf_cons_eq, h1, matchG_oneOf_cons_eq, h2,
      matchG_oneOf_nil_eq]

theorem splitTrivia_snd_idem (s : List Segment) :
    splitTrivia ((splitTrivia s).2) = ([], (splitTrivia s).2) := by
  induction s with
  | nil => rfl
  | cons x xs ih =>
    by_cases h : isTrivia x = true
    · simp only [splitTrivia, h, if_true]
      exact ih
    · simp only [splitTrivia, h, if_false]
      simp [splitTrivia, h]

/-- The delimited-list continuation never genuinely fails: it stops with
an empty extension instead. -/
theorem delimitedRest_noFail :
    ∀ (f : Nat) (d : Dialect) (g : Grammar) (s : List Segment),
      matchG f d (.delimitedRest g) s ≠ some none := by
  intro f
  induction f with
  | zero => intro d g s h; simp [matchG] at h
  | succ f ih =>
    intro d g s h
    rw [matchG_delimitedRest_eq] at h
    split at h
    · simp at h
    · simp at h
    · split at h
      · simp at h
      · simp at h
      · split at h
        · simp at h
        · rename_i heq
          exact ih d g _ heq
        · simp at h

theorem lookup_comma : Dialect.lookup hive_dialect "CommaSegment" =
    some (gram (.tok .comma)) := rfl

theorem lookup_equals : Dialect.lookup hive_dialect "EqualsSegment" =
    some (gram (.tok .equalsTok)) := rfl

theorem lookup_naked : Dialect.lookup hive_dialect "NakedIdentifierSegment" =
    some (gram .nakedIdent) := rfl

/-- The comma terminal has a genuine outcome on every stream at fuel 2. -/
theorem commaTotal (s : List Segment) :
    ∃ x, matchG 2 hive_dialect (.ref "CommaSegment") s = some x := by
  cases s with
  | nil => exact ⟨none, rfl⟩
  | cons x rest =>
    cases x with
    | node t cs => exact ⟨none, rfl⟩
    | leaf c r => cases c <;> exact ⟨_, rfl⟩

/-- The equals terminal has a genuine outcome on every stream at fuel 2. -/
theorem equalsTotal (s : List Segment) :
    ∃ x, matchG 2 hive_dialect (.ref "EqualsSegment") s = some x := by
  cases s with
  | nil => exact ⟨none, rfl⟩
  | cons x rest =>
    cases x with
    | node t cs => exact ⟨none, rfl⟩
    | leaf c r => cases c <;> exact ⟨_, rfl⟩

/-- The naked-identifier rule has a genuine outcome on every stream at
fuel 2. -/
theorem nakedTotal (s : List Segment) :
    ∃ x, matchG 2 hive_dialect (.ref "NakedIdentifierSegment") s = some x := by
  cases s with
  | nil => exact ⟨none, rfl⟩
  | cons x rest =>
    cases x with
    | node t cs => exact ⟨none, rfl⟩
    | leaf c r =>
      cases c <;> first
        | exact ⟨none, rfl⟩
        | · rw [show (2 : Nat) = 1 + 1 from rfl]
            simp only [ref_gram_eq lookup_naked 1, matchG_naked_eq]
            by_cases hres :
                (hive_dialect.reserved_keywords.any (fun k => kwEq r k)) = true
            · rw [if_pos hres]
              exact ⟨none, rfl⟩
            · rw [if_neg hres]
              exact ⟨_, rfl⟩

/-- The PARTITION keyword terminal has a genuine outcome on every stream
at fuel 1. -/
theorem partitionKwTotal (s : List Segment) :
    ∃ x, matchG 1 hive_dialect (.kw "PARTITION") s = some x := by
  cases s with
  | nil => exact ⟨none, rfl⟩
  | cons x rest =>
    cases x with
    | node t cs => exact ⟨none, rfl⟩
    | leaf c r =>
      cases c <;> first
        | exact ⟨none, rfl⟩
        | · rw [show (1 : Nat) = 0 + 1 from rfl]
            simp only [matchG_kw_eq]
            by_cases hk : kwEq r "PARTITION" = true
            · rw [if_pos hk]
              exact ⟨_, rfl⟩
            · rw [if_neg hk]
              exact ⟨none, rfl⟩

/-- The optional equals-value tail of a dynamic partition element has a
genuine outcome on every stream at fuel 5. -/
theorem innerTotal (s : List Segment) :
    ∃ x, matchG 5 hive_dialect
      (.seq [(.ref "EqualsSegment", false), (.ref "NakedIdentifierSegment", false)])
      s = some x := by
  obtain ⟨x1, hx1⟩ := equalsTotal (splitTrivia s).2
  have hx1b : matchG 4 hive_dialect (.ref "EqualsSegment") (splitTrivia s).2 =
      some x1 := matchG_mono (by omega) hx1
  rw [show (5 : Nat) = 4 + 1 from rfl, matchG_seq_cons_eq, hx1b]
  cases x1 with
  | none => exact ⟨none, rfl⟩
  | some rc =>
    simp only
    obtain ⟨x2, hx2⟩ := nakedTotal (splitTrivia rc.rest).2
    have hx2b : matchG 3 hive_dialect (.ref "NakedIdentifierSegment")
        (splitTrivia rc.rest).2 = some x2 := matchG_mono (by omega) hx2
    rw [show (4 : Nat) = 3 + 1 from rfl, matchG_seq_cons_eq, hx2b]
    cases x2 with
    | none => exact ⟨none, rfl⟩
    | some r3 =>
      simp only
      rw [show (3 : Nat) = 2 + 1 from rfl, matchG_seq_nil_eq]
      exact ⟨_, rfl⟩

/-- A dynamic partition element has a genuine outcome on every stream at
fuel 8. -/
theorem elemDTotal (s : List Segment) :
    ∃ x, matchG 8 hive_dialect elemD s = some x := by
  obtain ⟨x1, hx1⟩ := nakedTotal (splitTrivia s).2
  have hx1b : matchG 7 hive_dialect (.ref "NakedIdentifierSegment")
      (splitTrivia s).2 = some x1 := matchG_mono (by omega) hx1
  simp only [elemD, req, opt, R]
  rw [show (8 : Nat) = 7 + 1 from rfl, matchG_seq_cons_eq, hx1b]
  cases x1 with
  | none => exact ⟨none, rfl⟩
  | some r1 =>
    simp only
    obtain ⟨xi, hxi⟩ := innerTotal (splitTrivia r1.rest).2
    have hxib : matchG 6 hive_dialect
        (.seq [(.ref "EqualsSegment", false), (.ref "NakedIdentifierSegment", false)])
        (splitTrivia r1.rest).2 = some xi := matchG_mono (by omega) hxi
    rw [show (7 : Nat) = 6 + 1 from rfl, matchG_seq_cons_eq, hxib]
    cases xi with
    | none =>
      simp only [if_true]
      rw [show (6 : Nat) = 5 + 1 from rfl, matchG_seq_nil_eq]
      exact ⟨_, rfl⟩
    | some ri =>
      simp only
      rw [show (6 : Nat) = 5 + 1 from rfl, matchG_seq_nil_eq]
      exact ⟨_, rfl⟩

/-- A genuine comma match consumes at least the comma token. -/
theorem commaConsumes {f : Nat} {s : List Segment} {rc : MatchResult}
    (h : matchG f hive_dialect (.ref "CommaSegment") s = some (some rc)) :
    rc.rest.length < s.length := by
  have h2 : matchG (f + 1 + 1) hive_dialect (.ref "CommaSegment") s =
      some (some rc) := matchG_mono (by omega) h
  rw [ref_gram_eq lookup_comma (f + 1), matchG_tok_eq] at h2
  cases s with
  | nil => simp at h2
  | cons x rest =>
    cases x with
    | node t cs => simp at h2
    | leaf c r =>
      simp only at h2
      by_cases hc : c = TokClass.comma
      · rw [if_pos hc] at h2
        simp only [Option.some.injEq] at h2
        subst h2
        simp
      · rw [if_neg hc] at h2
        simp at h2

/-- The delimited-list continuation for the dynamic element has a genuine
(always successful) outcome on every stream. -/
theorem delimRestDTotal :
    ∀ (n : Nat) (s : List Segment), s.length ≤ n →
      ∃ F rr, matchG F hive_dialect (.delimitedRest elemD) s = some (some rr) := by
  intro n
  induction n with
  | zero =>
    intro s hs
    have : s = [] := List.length_eq_zero.mp (Nat.le_zero.mp hs)
    subst this
    exact ⟨3, ⟨[], []⟩, rfl⟩
  | succ n ih =>
    intro s hs
    obtain ⟨xc, hxc⟩ := commaTotal (splitTrivia s).2
    cases xc with
    | none =>
      refine ⟨2 + 1, ⟨[], s⟩, ?_⟩
      rw [matchG_delimitedRest_eq, hxc]
    | some rc =>
      have hlen1 : rc.rest.length < (splitTrivia s).2.length := commaConsumes hxc
      obtain ⟨xi, hxi⟩ := elemDTotal (splitTrivia rc.rest).2
      cases xi with
      | none =>
        refine ⟨8 + 1, ⟨[], s⟩, ?_⟩
        rw [matchG_delimitedRest_eq, matchG_mono (by omega) hxc]
        simp only
        rw [hxi]
      | some ri =>
        have hri : ri.rest.length ≤ (splitTrivia rc.rest).2.length :=
          (matchSound_all 8 hive_dialect elemD _ ri hxi).2
        have hrec : ri.rest.length ≤ n := by
          have h1 := splitTrivia_len s
          have h2 := splitTrivia_len rc.rest
          omega
        obtain ⟨Fr, rr, hrr⟩ := ih ri.rest hrec
        refine ⟨(Fr + 9) + 1, ⟨(splitTrivia s).1 ++ rc.matched ++
          (splitTrivia rc.rest).1 ++ ri.matched ++ rr.matched, rr.rest⟩, ?_⟩
        rw [matchG_delimitedRest_eq, matchG_mono (by omega) hxc]
        simp only
        rw [matchG_mono (by omega) hxi]
        simp only
        rw [matchG_mono (by omega) hrr]

/-- A strict partition element (identifier = identifier) is also matched
by the dynamic element grammar, with the identical result: the optional
equals-value tail accepts exactly the strict tail here. -/
theorem elemS_to_elemD {f : Nat} {s : List Segment} {r : MatchResult}
    (h : matchG f hive_dialect elemS s = some (some r)) :
    ∃ F, matchG F hive_dialect elemD s = some (some r) := by
  have h5 : matchG (f + 1 + 1 + 1 + 1) hive_dialect elemS s = some (some r) :=
    matchG_mono (by omega) h
  rw [show elemS = Grammar.seq [(.ref "NakedIdentifierSegment", false),
      (.ref "EqualsSegment", false), (.ref "NakedIdentifierSegment", false)]
    from rfl] at h5
  rw [matchG_seq_cons_eq] at h5
  cases hS1 : matchG (f + 1 + 1 + 1) hive_dialect (.ref "NakedIdentifierSegment")
      (splitTrivia s).2 with
  | none => rw [hS1] at h5; simp at h5
  | some y1 =>
    rw [hS1] at h5
    cases y1 with
    | none => simp at h5
    | some r1 =>
      simp only at h5
      rw [matchG_seq_cons_eq] at h5
      cases hS2 : matchG (f + 1 + 1) hive_dialect (.ref "EqualsSegment")
          (splitTrivia r1.rest).2 with
      | none => rw [hS2] at h5; simp at h5
      | some y2 =>
        rw [hS2] at h5
        cases y2 with
        | none => simp at h5
        | some rc =>
          simp only at h5
          rw [matchG_seq_cons_eq] at h5
          cases hS3 : matchG (f + 1) hive_dialect (.ref "NakedIdentifierSegment")
              (splitTrivia rc.rest).2 with
          | none => rw [hS3] at h5; simp at h5
          | some y3 =>
            rw [hS3] at h5
            cases y3 with
            | none => simp at h5
            | some r3 =>
              simp only at h5
              rw [matchG_seq_nil_eq] at h5
              simp only [Option.some.injEq] at h5
              have hinner : matchG (f + 1 + 1 + 1) hive_dialect
                  (.seq [(.ref "EqualsSegment", false),
                         (.ref "NakedIdentifierSegment", false)])
                  (splitTrivia r1.rest).2 =
                  some (some ⟨rc.matched ++ (splitTrivia rc.rest).1 ++
                    r3.matched, r3.rest⟩) := by
                rw [matchG_seq_cons_eq, splitTrivia_snd_idem r1.rest]
                simp only
                rw [hS2]
                simp only
                rw [matchG_seq_cons_eq, hS3]
                simp only
                rw [matchG_seq_nil_eq]
                simp [List.append_assoc]
              refine ⟨f + 1 + 1 + 1 + 1 + 1, ?_⟩
              rw [show elemD = Grammar.seq [(.ref "NakedIdentifierSegment", false),
                  (Grammar.seq [(.ref "EqualsSegment", false),
                    (.ref "NakedIdentifierSegment", false)], true)] from rfl]
              rw [matchG_seq_cons_eq, matchG_mono (by omega) hS1]
              simp only
              rw [matchG_seq_cons_eq, hinner]
              simp only
              rw [matchG_seq_nil_eq, ← h5]
              simp [List.append_assoc]

/-- Every stream genuinely matched by the strict partition-spec grammar is
also genuinely matched by the dynamic one. -/
theorem strict_to_dyn {f : Nat} {s : List Segment} {r : MatchResult}
    (h : matchG f hive_dialect strictBody s = some (some r)) :
    ∃ F r', matchG F hive_dialect dynBody s = some (some r') := by
  have h3 : matchG (f + 1 + 1 + 1) hive_dialect strictBody s = some (some r) :=
    matchG_mono (by omega) h
  rw [show strictBody = Grammar.seq [(.kw "PARTITION", false),
      (.delimited elemS, false)] from rfl, matchG_seq_cons_eq] at h3
  cases hK : matchG (f + 1 + 1) hive_dialect (.kw "PARTITION")
      (splitTrivia s).2 with
  | none => rw [hK] at h3; simp at h3
  | some yk =>
    rw [hK] at h3
    cases yk with
    | none => simp at h3
    | some rk =>
      simp only at h3
      rw [matchG_seq_cons_eq] at h3
      cases hD : matchG (f + 1) hive_dialect (.delimited elemS)
          (splitTrivia rk.rest).2 with
      | none => rw [hD] at h3; simp at h3
      | some yd =>
        rw [hD] at h3
        cases yd with
        | none => simp at h3
        | some rd =>
          rw [matchG_delimited_eq] at hD
          cases hE : matchG f hive_dialect elemS (splitTrivia rk.rest).2 with
          | none => rw [hE] at hD; simp at hD
          | some ye =>
            rw [hE] at hD
            cases ye with
            | none => simp at hD
            | some r1 =>
              obtain ⟨F1, hF1⟩ := elemS_to_elemD hE
              obtain ⟨F2, rr, hF2⟩ :=
                delimRestDTotal r1.rest.length r1.rest (le_refl _)
              have hE2 : matchG (F1 + F2 + f + 1) hive_dialect elemD
                  (splitTrivia rk.rest).2 = some (some r1) :=
                matchG_mono (by omega) hF1
              have hR2 : matchG (F1 + F2 + f + 1) hive_dialect
                  (.delimitedRest elemD) r1.rest = some (some rr) :=
                matchG_mono (by omega) hF2
              have hdelim : matchG (F1 + F2 + f + 1 + 1) hive_dialect
                  (.delimited elemD) (splitTrivia rk.rest).2 =
                  some (some ⟨r1.matched ++ rr.matched, rr.rest⟩) := by
                rw [matchG_delimited_eq, hE2]
                simp only
                rw [hR2]
              have hK2 : matchG (F1 + F2 + f + 1 + 1 + 1) hive_dialect
                  (.kw "PARTITION") (splitTrivia s).2 = some (some rk) :=
                matchG_mono (by omega) hK
              have hcont : matchG (F1 + F2 + f + 1 + 1 + 1) hive_dialect
                  (.seq [(.delimited elemD, false)]) rk.rest =
                  some (some ⟨(splitTrivia rk.rest).1 ++
                    (r1.matched ++ rr.matched) ++ [], rr.rest⟩) := by
                rw [matchG_seq_cons_eq, hdelim]
                simp only
                rw [matchG_seq_nil_eq]
              refine ⟨F1 + F2 + f + 1 + 1 + 1 + 1,
                ⟨(splitTrivia s).1 ++ rk.matched ++
                  ((splitTrivia rk.rest).1 ++ (r1.matched ++ rr.matched) ++ []),
                 rr.rest⟩, ?_⟩
              rw [show dynBody = Grammar.seq [(.kw "PARTITION", false),
                  (.delimited elemD, false)] from rfl, matchG_seq_cons_eq, hK2]
              simp only
              rw [hcont]

/-- If the dynamic partition-spec grammar genuinely fails on a stream, so
does the strict one (failure means the PARTITION keyword or the first
identifier is absent, which fails both forms). -/
theorem dyn_fail_to_strict {f : Nat} {s : List Segment}
    (h : matchG f hive_dialect dynBody s = some none) :
    ∃ F, matchG F hive_dialect strictBody s = some none := by
  have h6 : matchG (f + 1 + 1 + 1 + 1 + 1 + 1) hive_dialect dynBody s =
      some none := matchG_mono (by omega) h
  rw [show dynBody = Grammar.seq [(.kw "PARTITION", false),
      (.delimited elemD, false)] from rfl, matchG_seq_cons_eq] at h6
  cases hK : matchG (f + 1 + 1 + 1 + 1 + 1) hive_dialect (.kw "PARTITION")
      (splitTrivia s).2 with
  | none => rw [hK] at h6; simp at h6
  | some yk =>
    rw [hK] at h6
    cases yk with
    | none =>
      refine ⟨f + 1 + 1 + 1 + 1 + 1 + 1, ?_⟩
      rw [show strictBody = Grammar.seq [(.kw "PARTITION", false),
          (.delimited elemS, false)] from rfl, matchG_seq_cons_eq, hK]
      rfl
    | some rk =>
      simp only at h6
      rw [matchG_seq_cons_eq] at h6
      cases hD : matchG (f + 1 + 1 + 1 + 1) hive_dialect (.delimited elemD)
          (splitTrivia rk.rest).2 with
      | none => rw [hD] at h6; simp at h6
      | some yd =>
        rw [hD] at h6
        cases yd with
        | some rdel =>
          simp only at h6
          rw [matchG_seq_nil_eq] at h6
          simp at h6
        | none =>
          rw [matchG_delimited_eq] at hD
          cases hE : matchG (f + 1 + 1 + 1) hive_dialect elemD
              (splitTrivia rk.rest).2 with
          | none => rw [hE] at hD; simp at hD
          | some ye =>
            rw [hE] at hD
            cases ye with
            | some r1 =>
              simp only at hD
              cases hR : matchG (f + 1 + 1 + 1) hive_dialect
                  (.delimitedRest elemD) r1.rest with
              | none => rw [hR] at hD; simp at hD
              | some yr =>
                rw [hR] at hD
                cases yr with
                | none => exact absurd hR (delimitedRest_noFail _ _ _ _)
                | some rr => simp at hD
            | none =>
              rw [show elemD = Grammar.seq [(.ref "NakedIdentifierSegment", false),
                  (Grammar.seq [(.ref "EqualsSegment", false),
                    (.ref "NakedIdentifierSegment", false)], true)] from rfl,
                matchG_seq_cons_eq, splitTrivia_snd_idem rk.rest] at hE
              simp only at hE
              cases hI : matchG (f + 1 + 1) hive_dialect
                  (.ref "NakedIdentifierSegment") (splitTrivia rk.rest).2 with
              | none => rw [hI] at hE; simp at hE
              | some yi =>
                rw [hI] at hE
                cases yi with
                | some r1 =>
                  simp only at hE
                  rw [matchG_seq_cons_eq] at hE
                  cases hJ : matchG (f + 1) hive_dialect
                      (.seq [(.ref "EqualsSegment", false),
                             (.ref "NakedIdentifierSegment", false)])
                      (splitTrivia r1.rest).2 with
                  | none => rw [hJ] at hE; simp at hE
                  | some yj =>
                    rw [hJ] at hE
                    cases yj with
                    | none =>
                      simp only [if_true] at hE
                      rw [matchG_seq_nil_eq] at hE
                      simp at hE
                    | some rj =>
                      simp only at hE
                      rw [matchG_seq_nil_eq] at hE
                      simp at hE
                | none =>
                  refine ⟨f + 1 + 1 + 1 + 1 + 1 + 1, ?_⟩
                  rw [show strictBody = Grammar.seq [(.kw "PARTITION", false),
                      (.delimited elemS, false)] from rfl, matchG_seq_cons_eq]
                  rw [matchG_mono (by omega) hK]
                  simp only
                  rw [matchG_seq_cons_eq]
                  have hES : matchG (f + 1 + 1 + 1) hive_dialect elemS
                      (splitTrivia rk.rest).2 = some none := by
                    rw [show elemS = Grammar.seq
                        [(.ref "NakedIdentifierSegment", false),
                         (.ref "EqualsSegment", false),
                         (.ref "NakedIdentifierSegment", false)] from rfl,
                      matchG_seq_cons_eq, splitTrivia_snd_idem rk.rest]
                    simp only
                    rw [matchG_mono (by omega) hI]
                    rfl
                  have hDS : matchG (f + 1 + 1 + 1 + 1) hive_dialect
                      (.delimited elemS) (splitTrivia rk.rest).2 = some none := by
                    rw [matchG_delimited_eq, hES]
                  rw [hDS]
                  rfl

/-- C10: matching InsertNormalOrDynamicPartitionSpecGrammar is equivalent
to matching its first option InsertDynamicPartitionSpecGrammar alone:
every stream the strict form matches is also matched by the dynamic form
(the equals-value part of each element being optional), so under ordered
choice the second alternative is never selected — genuine matches and
genuine failures of the combined grammar coincide with those of the
dynamic grammar. -/
theorem C10_partition_spec_equivalence :
    (∀ (s : List Segment) (r : MatchResult),
      MatchesG hive_dialect (R "InsertPartitionSpecGrammar") s r →
      ∃ r', MatchesG hive_dialect (R "InsertDynamicPartitionSpecGrammar") s r')
    ∧ (∀ (s : List Segment) (r : MatchResult),
      MatchesG hive_dialect (R "InsertNormalOrDynamicPartitionSpecGrammar") s r ↔
      MatchesG hive_dialect (R "InsertDynamicPartitionSpecGrammar") s r)
    ∧ (∀ s : List Segment,
      FailsG hive_dialect (R "InsertNormalOrDynamicPartitionSpecGrammar") s ↔
      FailsG hive_dialect (R "InsertDynamicPartitionSpecGrammar") s) := by
  refine ⟨?_, ?_, ?_⟩
  · intro s r hm
    have hm' : MatchesG hive_dialect strictBody s r :=
      (matchesG_ref_iff lookup_strict s r).mp hm
    obtain ⟨f, hf⟩ := hm'
    obtain ⟨F, r', hF⟩ := strict_to_dyn hf
    exact ⟨r', (matchesG_ref_iff lookup_dyn s r').mpr ⟨F, hF⟩⟩
  · intro s r
    constructor
    · intro hm
      have h1 := (matchesG_ref_iff lookup_combo s r).mp hm
      rcases (matchesG_oneOf2_iff hive_dialect
          (R "InsertDynamicPartitionSpecGrammar")
          (R "InsertPartitionSpecGrammar") s r).mp h1 with h2 | ⟨hfd, hms⟩
      · exact h2
      · exfalso
        have hms' : MatchesG hive_dialect strictBody s r :=
          (matchesG_ref_iff lookup_strict s r).mp hms
        obtain ⟨f, hf⟩ := hms'
        obtain ⟨F, r', hF⟩ := strict_to_dyn hf
        have hfd' : FailsG hive_dialect dynBody s :=
          (failsG_ref_iff lookup_dyn s).mp hfd
        exact matchesG_not_failsG ⟨F, hF⟩ hfd'
    · intro hm
      refine (matchesG_ref_iff lookup_combo s r).mpr ?_
      exact (matchesG_oneOf2_iff hive_dialect
        (R "InsertDynamicPartitionSpecGrammar")
        (R "InsertPartitionSpecGrammar") s r).mpr (Or.inl hm)
  · intro s
    constructor
    · intro hf
      have h1 := (failsG_ref_iff lookup_combo s).mp hf
      exact ((failsG_oneOf2_iff hive_dialect
        (R "InsertDynamicPartitionSpecGrammar")
        (R "InsertPartitionSpecGrammar") s).mp h1).1
    · intro hf
      have hfd : FailsG hive_dialect dynBody s :=
        (failsG_ref_iff lookup_dyn s).mp hf
      obtain ⟨fd, hfd'⟩ := hfd
      obtain ⟨F, hFs⟩ := dyn_fail_to_strict hfd'
      have hfs : FailsG hive_dialect (R "InsertPartitionSpecGrammar") s :=
        (failsG_ref_iff lookup_strict s).mpr ⟨F, hFs⟩
      refine (failsG_ref_iff lookup_combo s).mpr ?_
      exact (failsG_oneOf2_iff hive_dialect
        (R "InsertDynamicPartitionSpecGrammar")
        (R "InsertPartitionSpecGrammar") s).mpr ⟨hf, hfs⟩

end SqlFluff
